import Mathlib

/-!
Verification of the Celestia `cmod` mesh core (src/celmodel/mesh.cpp) against
its natural-language specification.

Shallow embedding conventions:
* `std::vector` / raw arrays become Lean `List`s.
* Machine integers: `indices.size()` is `size_t` (64-bit unsigned) and
  `getPrimitiveCount` returns `unsigned int` (32-bit); subtraction wraps, so
  it is modelled explicitly with `% 2^64` / `% 2^32` on `Nat`.
* The byte buffer produced by line expansion is modelled at byte granularity
  (`List Nat`, one entry per byte); the two 4-byte IEEE-754 float constants
  the code stores (`-0.5f`, `0.5f`) appear as their little-endian byte
  encodings.
* For geometric queries (pick / bounding box / transform) the vertex buffer
  is modelled as a map from byte offset to the 4-byte float word starting at
  that offset, with float words as exact rationals (`ℚ`).  This is faithful
  for the 4-byte-aligned, non-overlapping float fields that
  `VertexDescription::validate` guarantees.
-/

/-- Modelled from the spec: the attribute semantic enumeration declared in
mesh.h (absent from the sources); spec §3 lists Position, Normal, Color,
TexCoord, PointSize, NextPosition, ScaleFactor plus an invalid sentinel. -/
inductive VertexAttributeSemantic where
  | Position
  | Normal
  | Color
  | TexCoord
  | PointSize
  | NextPosition
  | ScaleFactor
  | InvalidSemantic
deriving DecidableEq, Repr

/-- Modelled from the spec: the numeric format enumeration declared in mesh.h
(absent from the sources); spec §3: Float1/2/3/4, UByte4, each with a fixed
byte size, plus an invalid sentinel. -/
inductive VertexAttributeFormat where
  | Float1
  | Float2
  | Float3
  | Float4
  | UByte4
  | InvalidFormat
deriving DecidableEq, Repr

/-- Modelled from the spec: `VertexAttribute::getFormatSize` from mesh.h
(absent from the sources); each format has a fixed byte size (floats are
4 bytes each, UByte4 is 4 bytes, the invalid sentinel has size 0). -/
def getFormatSize : VertexAttributeFormat → Nat
  | .Float1 => 4
  | .Float2 => 8
  | .Float3 => 12
  | .Float4 => 16
  | .UByte4 => 4
  | .InvalidFormat => 0

/-- Modelled from the spec: `VertexAttribute` from mesh.h (absent from the
sources): one packed field of a vertex record — semantic role, numeric
format, byte offset (spec §3). -/
structure VertexAttribute where
  semantic : VertexAttributeSemantic
  format : VertexAttributeFormat
  offset : Nat
deriving DecidableEq, Repr

/-- Modelled from the spec: the default-constructed `VertexAttribute`
sentinel used for absent semantics (spec §4.1: a sentinel "absent" field
whose semantic mismatches). -/
def defaultVertexAttribute : VertexAttribute :=
  { semantic := .InvalidSemantic, format := .InvalidFormat, offset := 0 }

instance : Inhabited VertexAttribute := ⟨defaultVertexAttribute⟩

/-- `VertexDescription` (mesh.h / mesh.cpp): stride plus the ordered field
list.  The semantic map is a derived value (`buildSemanticMap`), so it is
not stored as a separate field here. -/
structure VertexDescription where
  stride : Nat
  attributes : List VertexAttribute
deriving DecidableEq, Repr

/-- `VertexDescription::buildSemanticMap` (mesh.cpp lines 89–96): writes each
attribute into the slot of its semantic, in sequence order, so on duplicate
semantics the last attribute wins. -/
def buildSemanticMap (attrs : List VertexAttribute) :
    VertexAttributeSemantic → VertexAttribute :=
  attrs.foldl
    (fun m attr => fun s => if s = attr.semantic then attr else m s)
    (fun _ => defaultVertexAttribute)

/-- Modelled from the spec: `VertexDescription::getAttribute` from mesh.h
(absent from the sources): O(1) lookup in the semantic map rebuilt by
`buildSemanticMap`, returning the sentinel attribute when none is
registered (spec §4.1 `fieldFor`). -/
def VertexDescription.getAttribute (desc : VertexDescription)
    (s : VertexAttributeSemantic) : VertexAttribute :=
  buildSemanticMap desc.attributes s

/-- `VertexDescription::validate` (mesh.cpp lines 72–86): false iff some
attribute has a non-4-byte-aligned offset or extends past the stride. -/
def VertexDescription.validate (desc : VertexDescription) : Bool :=
  desc.attributes.all
    (fun attr =>
      decide (attr.offset % 4 = 0) &&
      decide (attr.offset + getFormatSize attr.format ≤ desc.stride))

/-- `appendingAttributes` (mesh.cpp lines 26–41): concatenates the original
attribute list with the new ones and grows the stride by the sum of the new
formats' byte sizes. -/
def appendingAttributes (desc : VertexDescription)
    (newAttrs : List VertexAttribute) : VertexDescription :=
  { stride := newAttrs.foldl
      (fun newStride a => newStride + getFormatSize a.format) desc.stride
    attributes := desc.attributes ++ newAttrs }

/-- The two synthetic attributes appended by
`Mesh::createLinePrimitiveGroup` (mesh.cpp lines 284–287): the other
endpoint's position (same format as Position) at the original stride, and
the Float1 scale factor right after it. -/
def lineNewAttributes (desc : VertexDescription) : List VertexAttribute :=
  let positionAttributes := desc.getAttribute .Position
  let positionSize := getFormatSize positionAttributes.format
  [{ semantic := .NextPosition, format := positionAttributes.format,
     offset := desc.stride },
   { semantic := .ScaleFactor, format := .Float1,
     offset := desc.stride + positionSize }]

/-- `PrimitiveGroupType` (mesh.h, via the cases used in mesh.cpp). -/
inductive PrimitiveGroupType where
  | TriList
  | TriStrip
  | TriFan
  | LineList
  | LineStrip
  | PointList
  | SpriteList
deriving DecidableEq, Repr

/-- Modelled from the spec: the `PrimitiveGroup` fields declared in mesh.h
(absent from the sources) and assigned throughout mesh.cpp: topology,
material index, index sequence, and the optional override (private vertex
buffer, count, layout, indices, topology) used for synthesized geometry
(spec §3).  The override vertex buffer is the float-word map described in
the file header; `none` models a null `vertexOverride` pointer. -/
structure PrimitiveGroup where
  prim : PrimitiveGroupType
  materialIndex : Nat
  indices : List Nat
  vertexOverride : Option (Nat → ℚ)
  vertexCountOverride : Nat
  vertexDescriptionOverride : VertexDescription
  indicesOverride : List Nat
  primOverride : PrimitiveGroupType

/-- Truncation to a 32-bit unsigned value (the `unsigned int` return type of
`getPrimitiveCount`). -/
def toU32 (n : Nat) : Nat := n % 2 ^ 32

/-- `size_t` subtraction `n - 2` followed by conversion to `unsigned int`:
wraps modulo 2^64, then truncates modulo 2^32. -/
def sizeSubTwoToU32 (n : Nat) : Nat := ((n + 2 ^ 64 - 2) % 2 ^ 64) % 2 ^ 32

/-- `PrimitiveGroup::getPrimitiveCount` (mesh.cpp lines 119–140):
TriList → size/3, TriStrip/TriFan → size−2, LineList → size/2,
LineStrip → size−2, PointList/SpriteList → size, computed in `size_t`
arithmetic and returned as `unsigned int`. -/
def PrimitiveGroup.getPrimitiveCount (g : PrimitiveGroup) : Nat :=
  match g.prim with
  | .TriList => toU32 (g.indices.length / 3)
  | .TriStrip => sizeSubTwoToU32 g.indices.length
  | .TriFan => sizeSubTwoToU32 g.indices.length
  | .LineList => toU32 (g.indices.length / 2)
  | .LineStrip => sizeSubTwoToU32 g.indices.length
  | .PointList => toU32 g.indices.length
  | .SpriteList => toU32 g.indices.length

/-- A primitive group with every field defaulted; convenient base for
concrete test groups. -/
def emptyGroup : PrimitiveGroup :=
  { prim := .TriList
    materialIndex := 0
    indices := []
    vertexOverride := none
    vertexCountOverride := 0
    vertexDescriptionOverride := { stride := 0, attributes := [] }
    indicesOverride := []
    primOverride := .TriList }

/-- `Mesh` (mesh.h / mesh.cpp): one vertex description, the owned vertex
buffer with its record count, and the ordered primitive-group collection.
The buffer is the float-word map described in the file header (`name` is
omitted: no claim concerns it). -/
structure Mesh where
  vertexDesc : VertexDescription
  nVertices : Nat
  vertices : Nat → ℚ
  groups : List PrimitiveGroup

/-- A mesh with no vertices, an empty layout and no groups. -/
def emptyMesh : Mesh :=
  { vertexDesc := { stride := 0, attributes := [] }
    nVertices := 0
    vertices := fun _ => 0
    groups := [] }

/-- `Mesh::setVertexDescription` (mesh.cpp lines 169–177): validate the
supplied description; on failure report false leaving the mesh untouched,
on success adopt it and report true. -/
def Mesh.setVertexDescription (m : Mesh) (desc : VertexDescription) :
    Bool × Mesh :=
  if !desc.validate then (false, m)
  else (true, { m with vertexDesc := desc })

/-- `Mesh::getGroup` (mesh.cpp lines 186–203): null (`none`) when the index
is at or past the group count, otherwise the index-th group. -/
def Mesh.getGroup (m : Mesh) (index : Nat) : Option PrimitiveGroup :=
  if h : index ≥ m.groups.length then none
  else some (m.groups.get ⟨index, by omega⟩)

/-- `Mesh::addGroup` (mesh.cpp lines 206–211): push the group at the back
and return the new group count. -/
def Mesh.addGroup (m : Mesh) (g : PrimitiveGroup) : Nat × Mesh :=
  ((m.groups ++ [g]).length, { m with groups := m.groups ++ [g] })

/-- `Mesh::remapIndices` (mesh.cpp lines 352–362): for every group, replace
each base index `i` by `indexMap[i]`; nothing else is touched.  The C++
`operator[]` access is modelled with `getD` (the caller guarantees
coverage). -/
def Mesh.remapIndices (m : Mesh) (indexMap : List Nat) : Mesh :=
  { m with
    groups := m.groups.map
      (fun g =>
        { g with
          indices := g.indices.map (fun index => indexMap.getD index 0) }) }

/-- The comparator passed to `std::sort` by `Mesh::aggregateByMaterial`
(mesh.cpp lines 373–381): ascending material index. -/
def materialIndexLess (g0 g1 : PrimitiveGroup) : Prop :=
  g0.materialIndex < g1.materialIndex

/-- A group sequence sorted with respect to `materialIndexLess`, in the
sense guaranteed by `std::sort`: no later element compares below an earlier
one. -/
def aggregateByMaterialSorted (out : List PrimitiveGroup) : Prop :=
  out.Pairwise (fun g0 g1 => ¬ materialIndexLess g1 g0)

/-- `Mesh::aggregateByMaterial` (mesh.cpp lines 373–381) calls `std::sort`
on the group list with `materialIndexLess`.  `std::sort` guarantees exactly
that the result is a permutation of the input that is sorted with respect
to the comparator — it does not guarantee stability — so the call is
embedded as the relation between the prior and the resulting group list
that this contract allows. -/
def aggregateByMaterialPost (inp out : List PrimitiveGroup) : Prop :=
  inp.Perm out ∧ aggregateByMaterialSorted out

/-- Concrete group with material index 5 and no indices. -/
def cgA : PrimitiveGroup := { emptyGroup with materialIndex := 5 }

/-- Concrete group with material index 5 and one index; differs from `cgA`
only in the index list. -/
def cgB : PrimitiveGroup :=
  { emptyGroup with materialIndex := 5, indices := [1] }

/-- The `index` advance performed by the triangle walker of `Mesh::pick`
when moving to the next triangle (mesh.cpp lines 473–504): TriList adds 3;
TriStrip adds 1; TriFan adds 1 and then — only when the incremented index
is still below the index count — adds 1 more.  Non-triangle topologies
never reach the walker; the catch-all jumps to the loop bound. -/
def pickNextIndex (prim : PrimitiveGroupType) (nIndices index : Nat) : Nat :=
  match prim with
  | .TriList => index + 3
  | .TriStrip => index + 1
  | .TriFan => if index + 1 < nIndices then index + 2 else index + 1
  | _ => nIndices

/-- The `(i0, i1, i2)` update of one walker advance in `Mesh::pick`
(mesh.cpp lines 473–504) together with the list of positions it reads from
the group's index sequence: TriList reloads three fresh indices at the
advanced position when in range; TriStrip shifts and reads the single
index at the advanced position; TriFan keeps `i0`, shifts `i2` into `i1`
and reads the index at the doubly-advanced position (which can equal the
index count).  Out-of-range reads are modelled with `getD`; the read
position is recorded regardless. -/
def pickNextTri (prim : PrimitiveGroupType) (ind : List Nat)
    (nIndices index i0 i1 i2 : Nat) : (Nat × Nat × Nat) × List Nat :=
  match prim with
  | .TriList =>
      if index + 3 < nIndices then
        ((ind.getD (index + 3) 0, ind.getD (index + 4) 0,
          ind.getD (index + 5) 0),
         [index + 3, index + 4, index + 5])
      else ((i0, i1, i2), [])
  | .TriStrip =>
      if index + 1 < nIndices then
        ((i1, i2, ind.getD (index + 1) 0), [index + 1])
      else ((i0, i1, i2), [])
  | .TriFan =>
      if index + 1 < nIndices then
        ((i0, i2, ind.getD (index + 2) 0), [index + 2])
      else ((i0, i1, i2), [])
  | _ => ((i0, i1, i2), [])

/-- The do-while triangle loop of `Mesh::pick` (mesh.cpp lines 422–508):
process the current triple, advance, and continue while the advanced index
is below the index count.  Returns the processed triples and the positions
read during the advances. -/
def pickWalkAux (prim : PrimitiveGroupType) (ind : List Nat)
    (nIndices index i0 i1 i2 : Nat) : List (Nat × Nat × Nat) × List Nat :=
  let step := pickNextTri prim ind nIndices index i0 i1 i2
  let index2 := pickNextIndex prim nIndices index
  if h : index2 < nIndices then
    let rest := pickWalkAux prim ind nIndices index2
      step.1.1 step.1.2.1 step.1.2.2
    ((i0, i1, i2) :: rest.1, step.2 ++ rest.2)
  else
    ([(i0, i1, i2)], step.2)
termination_by nIndices - index
decreasing_by
  have h2 : pickNextIndex prim nIndices index < nIndices := h
  cases prim <;> simp only [pickNextIndex] at h2 ⊢ <;>
    first
    | omega
    | (by_cases hc : index + 1 < nIndices <;> simp [hc] at h2 ⊢ <;> omega)

/-- The batch-eligibility gate and triangle walk of `Mesh::pick`
(mesh.cpp lines 404–508): only triangle topologies with at least 3 indices
are walked, and a TriList additionally requires an index count divisible
by 3.  Returns the `(i0, i1, i2)` triples fed to the intersection test and
every position read from the index sequence (the initial reads at
0, 1, 2 first). -/
def pickWalkGroup (prim : PrimitiveGroupType) (indices : List Nat) :
    List (Nat × Nat × Nat) × List Nat :=
  let nIndices := indices.length
  if (prim = .TriList ∨ prim = .TriStrip ∨ prim = .TriFan) ∧
      3 ≤ nIndices ∧ ¬(prim = .TriList ∧ nIndices % 3 ≠ 0) then
    let r := pickWalkAux prim indices nIndices 0
      (indices.getD 0 0) (indices.getD 1 0) (indices.getD 2 0)
    (r.1, 0 :: 1 :: 2 :: r.2)
  else ([], [])

/-- Little-endian bytes of the IEEE-754 single-precision value `-0.5f`
(bit pattern 0xBF000000) that `createLinePrimitiveGroup` stores as the
scale factor of the first and third vertex of each segment. -/
def negHalfBytes : List Nat := [0x00, 0x00, 0x00, 0xBF]

/-- Little-endian bytes of the IEEE-754 single-precision value `0.5f`
(bit pattern 0x3F000000) stored as the scale factor of the second and
fourth vertex of each segment. -/
def posHalfBytes : List Nat := [0x00, 0x00, 0x00, 0x3F]

/-- `len` bytes of `data` starting at byte `start` (a `memcpy` source or
destination range). -/
def byteSlice (data : List Nat) (start len : Nat) : List Nat :=
  (data.drop start).take len

/-- One output vertex record written by the loop of
`Mesh::createLinePrimitiveGroup` (mesh.cpp lines 252–270): a byte copy of
this endpoint's whole original record, then the other endpoint's position
bytes, then the 4 scale-factor bytes. -/
def lineVertexBytes (originalData : List Nat)
    (originalStride positionOffset positionSize endIndex otherIndex : Nat)
    (scaleBytes : List Nat) : List Nat :=
  byteSlice originalData (endIndex * originalStride) originalStride ++
    byteSlice originalData (otherIndex * originalStride + positionOffset)
      positionSize ++
    scaleBytes

/-- The 4 output vertex records one loop iteration of
`Mesh::createLinePrimitiveGroup` writes (mesh.cpp lines 241–282):
(thisEnd, −0.5), (thisEnd, +0.5), (otherEnd, −0.5), (otherEnd, +0.5). -/
def lineSegmentBytes (originalData : List Nat)
    (originalStride positionOffset positionSize thisIndex nextIndex : Nat) :
    List Nat :=
  lineVertexBytes originalData originalStride positionOffset positionSize
      thisIndex nextIndex negHalfBytes ++
    lineVertexBytes originalData originalStride positionOffset positionSize
      thisIndex nextIndex posHalfBytes ++
    lineVertexBytes originalData originalStride positionOffset positionSize
      nextIndex thisIndex negHalfBytes ++
    lineVertexBytes originalData originalStride positionOffset positionSize
      nextIndex thisIndex posHalfBytes

/-- The fields of the override `PrimitiveGroup` filled in by
`Mesh::createLinePrimitiveGroup` (mesh.cpp lines 288–294), with the
private vertex buffer at byte granularity. -/
structure LinePrimitiveGroup where
  vertexOverride : List Nat
  vertexCountOverride : Nat
  vertexDescriptionOverride : VertexDescription
  indicesOverride : List Nat
  primOverride : PrimitiveGroupType
deriving DecidableEq, Repr

/-- `lineCount` in `Mesh::createLinePrimitiveGroup` (mesh.cpp line 230):
strip → N − 1, list → N / 2. -/
def lineCountOf (lineStrip : Bool) (indices : List Nat) : Nat :=
  if lineStrip then indices.length - 1 else indices.length / 2

/-- `thisIndex` of segment `i` (mesh.cpp line 243). -/
def lineThisIndex (lineStrip : Bool) (indices : List Nat) (i : Nat) : Nat :=
  indices.getD (if lineStrip then i else i * 2) 0

/-- `nextIndex` of segment `i` (mesh.cpp line 244). -/
def lineNextIndex (lineStrip : Bool) (indices : List Nat) (i : Nat) : Nat :=
  indices.getD (if lineStrip then i + 1 else i * 2 + 1) 0

/-- The widened output stride of line expansion (mesh.cpp line 227):
originalStride + positionSize + sizeof(float). -/
def lineStrideOf (desc : VertexDescription) : Nat :=
  desc.stride + getFormatSize (desc.getAttribute .Position).format + 4

/-- `Mesh::createLinePrimitiveGroup` (mesh.cpp lines 214–295): expands a
line strip (`lineCount = N − 1` segments) or line list (`N / 2` segments)
into 4 vertices and 6 indices per segment, at the widened stride
originalStride + positionSize + 4, and builds the override layout by
appending the NextPosition / ScaleFactor attributes. -/
def createLinePrimitiveGroup (desc : VertexDescription)
    (originalData : List Nat) (lineStrip : Bool) (indices : List Nat) :
    LinePrimitiveGroup :=
  let positionAttributes := desc.getAttribute .Position
  let positionSize := getFormatSize positionAttributes.format
  let positionOffset := positionAttributes.offset
  let originalStride := desc.stride
  let lineCount := lineCountOf lineStrip indices
  let data := (List.range lineCount).flatMap
    (fun i =>
      lineSegmentBytes originalData originalStride positionOffset
        positionSize
        (lineThisIndex lineStrip indices i)
        (lineNextIndex lineStrip indices i))
  let newIndices := (List.range lineCount).flatMap
    (fun i => [4 * i, 4 * i + 1, 4 * i + 2, 4 * i + 2, 4 * i + 3, 4 * i])
  { vertexOverride := data
    vertexCountOverride := 4 * lineCount
    vertexDescriptionOverride := appendingAttributes desc
      (lineNewAttributes desc)
    indicesOverride := newIndices
    primOverride := .TriList }

/-- 3-vectors with exact-rational components, standing in for the
`Eigen::Vector3f`/`Vector3d` values of the geometric routines. -/
abbrev Vec3 : Type := ℚ × ℚ × ℚ

/-- Componentwise vector sum. -/
def v3add (a b : Vec3) : Vec3 :=
  (a.1 + b.1, a.2.1 + b.2.1, a.2.2 + b.2.2)

/-- Componentwise vector difference. -/
def v3sub (a b : Vec3) : Vec3 :=
  (a.1 - b.1, a.2.1 - b.2.1, a.2.2 - b.2.2)

/-- Scalar multiple. -/
def v3scale (a : Vec3) (s : ℚ) : Vec3 :=
  (a.1 * s, a.2.1 * s, a.2.2 * s)

/-- Dot product. -/
def v3dot (a b : Vec3) : ℚ :=
  a.1 * b.1 + a.2.1 * b.2.1 + a.2.2 * b.2.2

/-- Cross product. -/
def v3cross (a b : Vec3) : Vec3 :=
  (a.2.1 * b.2.2 - a.2.2 * b.2.1,
   a.2.2 * b.1 - a.1 * b.2.2,
   a.1 * b.2.1 - a.2.1 * b.1)

/-- Read the three float words of an `Eigen::Map<Vector3f>` rooted at a
byte offset of the word-map buffer (the words at the offset, offset+4,
offset+8). -/
def readVec3 (buf : Nat → ℚ) (byteOff : Nat) : Vec3 :=
  (buf byteOff, buf (byteOff + 4), buf (byteOff + 8))

/-- Write the three float words of an `Eigen::Map<Vector3f>` rooted at a
byte offset of the word-map buffer. -/
def writeVec3 (buf : Nat → ℚ) (byteOff : Nat) (v : Vec3) : Nat → ℚ :=
  Function.update
    (Function.update (Function.update buf byteOff v.1) (byteOff + 4) v.2.1)
    (byteOff + 8) v.2.2

/-- The per-vertex update of `Mesh::transform` (mesh.cpp line 580):
`(v + translation) * scale`, componentwise. -/
def transformVec (v translation : Vec3) (scale : ℚ) : Vec3 :=
  ((v.1 + translation.1) * scale,
   (v.2.1 + translation.2.1) * scale,
   (v.2.2 + translation.2.2) * scale)

/-- The first loop of `Mesh::transform` (mesh.cpp lines 578–582): for each
of the `n` records, replace the position vector at
`i * stride + posOffset` with its transform. -/
def transformPositionsLoop (stride posOffset : Nat) (translation : Vec3)
    (scale : ℚ) (n : Nat) (buf : Nat → ℚ) : Nat → ℚ :=
  (List.range n).foldl
    (fun b i =>
      writeVec3 b (i * stride + posOffset)
        (transformVec (readVec3 b (i * stride + posOffset))
          translation scale))
    buf

/-- The override-buffer loop body of `Mesh::transform` (mesh.cpp lines
595–602): per record, transform the Position vector, then the NextPosition
vector. -/
def transformOverrideLoop (stride posOffset nextPosOffset : Nat)
    (translation : Vec3) (scale : ℚ) (n : Nat) (buf : Nat → ℚ) :
    Nat → ℚ :=
  (List.range n).foldl
    (fun b j =>
      let b1 := writeVec3 b (j * stride + posOffset)
        (transformVec (readVec3 b (j * stride + posOffset))
          translation scale)
      writeVec3 b1 (j * stride + nextPosOffset)
        (transformVec (readVec3 b1 (j * stride + nextPosOffset))
          translation scale))
    buf

/-- The point-size loop of `Mesh::transform` (mesh.cpp lines 606–611):
multiply each record's point-size word by the scale. -/
def scalePointSizesLoop (stride psOffset : Nat) (scale : ℚ) (n : Nat)
    (buf : Nat → ℚ) : Nat → ℚ :=
  (List.range n).foldl
    (fun b i =>
      Function.update b (i * stride + psOffset)
        (b (i * stride + psOffset) * scale))
    buf

/-- `Mesh::transform` (mesh.cpp lines 568–612): no-op unless the layout has
a Float3 Position; otherwise transform every vertex position in the mesh
buffer, transform Position and NextPosition in every group's override
buffer, and finally scale the point sizes if a Float1 PointSize field
exists. -/
def Mesh.transform (m : Mesh) (translation : Vec3) (scale : ℚ) : Mesh :=
  if (m.vertexDesc.getAttribute .Position).format ≠ .Float3 then m
  else
    let posOffset := (m.vertexDesc.getAttribute .Position).offset
    let stride := m.vertexDesc.stride
    let verts1 := transformPositionsLoop stride posOffset translation scale
      m.nVertices m.vertices
    let groups2 := m.groups.map
      (fun g =>
        match g.vertexOverride with
        | none => g
        | some vdata =>
          let descO := g.vertexDescriptionOverride
          { g with
            vertexOverride := some (transformOverrideLoop descO.stride
              (descO.getAttribute .Position).offset
              (descO.getAttribute .NextPosition).offset
              translation scale g.vertexCountOverride vdata) })
    let verts2 :=
      if (m.vertexDesc.getAttribute .PointSize).format = .Float1 then
        scalePointSizesLoop stride
          (m.vertexDesc.getAttribute .PointSize).offset scale
          m.nVertices verts1
      else verts1
    { m with vertices := verts2, groups := groups2 }

/-- `maxDistance` in `Mesh::pick` (mesh.cpp line 387), the 1.0e30 sentinel
for "no hit yet". -/
def maxPickDistance : ℚ := 10 ^ 30

/-- The per-triangle body of `Mesh::pick` (mesh.cpp lines 424–469) with
doubles as exact rationals: compute edges, normal and the ray-plane
parameter; on a parallel ray (`c = 0`), an out-of-range parameter, a
singular metric, or an outside barycentric pair, keep the current closest
distance, else return the new one.  The `PickResult` recording is elided:
the boolean result of pick depends only on the final closest distance. -/
def rayTriClosest (rayOrigin rayDirection v0 v1 v2 : Vec3) (closest : ℚ) :
    ℚ :=
  let e0 := v3sub v1 v0
  let e1 := v3sub v2 v0
  let n := v3cross e0 e1
  let c := v3dot n rayDirection
  if c ≠ 0 then
    let t := v3dot n (v3sub v0 rayOrigin) / c
    if t < closest ∧ t > 0 then
      let m00 := v3dot e0 e0
      let m01 := v3dot e0 e1
      let m10 := v3dot e1 e0
      let m11 := v3dot e1 e1
      let det := m00 * m11 - m01 * m10
      if det ≠ 0 then
        let p := v3add rayOrigin (v3scale rayDirection t)
        let q := v3sub p v0
        let q0 := v3dot e0 q
        let q1 := v3dot e1 q
        let d := 1 / det
        let s0 := (m11 * q0 - m01 * q1) * d
        let s1 := (m00 * q1 - m10 * q0) * d
        if s0 ≥ 0 ∧ s1 ≥ 0 ∧ s0 + s1 ≤ 1 then t else closest
      else closest
    else closest
  else closest

/-- `Mesh::pick` (mesh.cpp lines 384–513), boolean overload: false
immediately unless the layout has a Float3 Position field (semantic and
format both checked); otherwise fold the per-triangle test over the
triangles the walker visits in every eligible group, and report whether
any candidate beat the 1.0e30 sentinel. -/
def Mesh.pick (m : Mesh) (rayOrigin rayDirection : Vec3) : Bool :=
  if (m.vertexDesc.getAttribute .Position).semantic ≠ .Position ∨
      (m.vertexDesc.getAttribute .Position).format ≠ .Float3 then false
  else
    let posOffset := (m.vertexDesc.getAttribute .Position).offset
    let closest := m.groups.foldl
      (fun closest g =>
        (pickWalkGroup g.prim g.indices).1.foldl
          (fun closest tri =>
            rayTriClosest rayOrigin rayDirection
              (readVec3 m.vertices
                (tri.1 * m.vertexDesc.stride + posOffset))
              (readVec3 m.vertices
                (tri.2.1 * m.vertexDesc.stride + posOffset))
              (readVec3 m.vertices
                (tri.2.2 * m.vertexDesc.stride + posOffset))
              closest)
          closest)
      maxPickDistance
    decide (closest ≠ maxPickDistance)

/-- `Eigen::AlignedBox::extend(point)`: an empty box becomes the degenerate
point box, else componentwise min/max.  Boxes are `some (lo, hi)`; `none`
is the empty box. -/
def boxExtendPoint (box : Option (Vec3 × Vec3)) (p : Vec3) :
    Option (Vec3 × Vec3) :=
  match box with
  | none => some (p, p)
  | some (lo, hi) =>
      some ((min lo.1 p.1, min lo.2.1 p.2.1, min lo.2.2 p.2.2),
            (max hi.1 p.1, max hi.2.1 p.2.1, max hi.2.2 p.2.2))

/-- `Eigen::AlignedBox::extend(box)` with a corner pair. -/
def boxExtendBox (box : Option (Vec3 × Vec3)) (b : Vec3 × Vec3) :
    Option (Vec3 × Vec3) :=
  match box with
  | none => some b
  | some (lo, hi) =>
      some ((min lo.1 b.1.1, min lo.2.1 b.1.2.1, min lo.2.2 b.1.2.2),
            (max hi.1 b.2.1, max hi.2.1 b.2.2.1, max hi.2.2 b.2.2.2))

/-- `Mesh::getBoundingBox` (mesh.cpp lines 530–565): empty box unless the
layout has a Float3 Position; with a Float1 PointSize each vertex
contributes a box inflated by its own point size, else each vertex
contributes its position point.  The point-size word is read at the
record's PointSize offset (the code forms the same address through a
relative offset from the position). -/
def Mesh.getBoundingBox (m : Mesh) : Option (Vec3 × Vec3) :=
  if (m.vertexDesc.getAttribute .Position).format ≠ .Float3 then none
  else
    let posOffset := (m.vertexDesc.getAttribute .Position).offset
    let stride := m.vertexDesc.stride
    if (m.vertexDesc.getAttribute .PointSize).format = .Float1 then
      let psOffset := (m.vertexDesc.getAttribute .PointSize).offset
      (List.range m.nVertices).foldl
        (fun bbox i =>
          let center := readVec3 m.vertices (i * stride + posOffset)
          let pointSize := m.vertices (i * stride + psOffset)
          boxExtendBox bbox
            ((center.1 - pointSize, center.2.1 - pointSize,
              center.2.2 - pointSize),
             (center.1 + pointSize, center.2.1 + pointSize,
              center.2.2 + pointSize)))
        none
    else
      (List.range m.nVertices).foldl
        (fun bbox i =>
          boxExtendPoint bbox (readVec3 m.vertices (i * stride + posOffset)))
        none

/-- Concrete layout for line-expansion tests: a single Float3 Position at
offset 0, stride 12. -/
def lineDescW : VertexDescription :=
  { stride := 12, attributes := [⟨.Position, .Float3, 0⟩] }

/-- Concrete 2-record vertex buffer (24 bytes) for line-expansion tests. -/
def lineDataW : List Nat :=
  [10, 11, 12, 13, 20, 21, 22, 23, 30, 31, 32, 33,
   40, 41, 42, 43, 50, 51, 52, 53, 60, 61, 62, 63]

/-- Concrete one-vertex mesh for transform tests: Float3 Position at 0 and
Float1 PointSize at 12 (stride 16), buffer word at byte offset q holding
the rational q, and one group carrying a line-expansion-shaped override
(Position at 0, NextPosition at 12, ScaleFactor at 24, stride 28) whose
buffer also holds q at offset q. -/
def meshW7 : Mesh :=
  { vertexDesc :=
      { stride := 16,
        attributes := [⟨.Position, .Float3, 0⟩, ⟨.PointSize, .Float1, 12⟩] }
    nVertices := 1
    vertices := fun q => (q : ℚ)
    groups := [{ emptyGroup with
      vertexOverride := some (fun q => (q : ℚ)),
      vertexCountOverride := 1,
      vertexDescriptionOverride :=
        { stride := 28,
          attributes := [⟨.Position, .Float3, 0⟩,
                         ⟨.NextPosition, .Float3, 12⟩,
                         ⟨.ScaleFactor, .Float1, 24⟩] } }] }

/-! ## Theorems -/

/-- C1 (counterexample): the claim "when the index count is below the
topology's minimum the result is 0, never a negative or wrapped-around
value" fails: a TriStrip batch with 0 indices yields the wrapped value
4294967294 (= 2^32 − 2), not 0. -/
theorem C1_count_counterexample :
    ({ emptyGroup with prim := .TriStrip } : PrimitiveGroup).getPrimitiveCount
      = 4294967294 ∧ (4294967294 : Nat) ≠ 0 := by
  exact ⟨by decide, by decide⟩

/-- C1 (amended): getPrimitiveCount returns indices/3 for TriList,
indices/2 for LineList, indices for PointList/SpriteList (each with the
natural zero floor for under-minimum counts), and for
TriStrip/TriFan/LineStrip it returns indices−2 in unsigned arithmetic:
the exact difference when indices ≥ 2, but the wrapped 32-bit value
2^32 − (2 − indices) — not 0 — when indices < 2. -/
theorem C1_count_amended (g : PrimitiveGroup) (h : g.indices.length < 2 ^ 32) :
    (g.prim = .TriList → g.getPrimitiveCount = g.indices.length / 3) ∧
    ((g.prim = .TriStrip ∨ g.prim = .TriFan ∨ g.prim = .LineStrip) →
      (2 ≤ g.indices.length → g.getPrimitiveCount = g.indices.length - 2) ∧
      (g.indices.length < 2 →
        g.getPrimitiveCount = 2 ^ 32 - (2 - g.indices.length))) ∧
    (g.prim = .LineList → g.getPrimitiveCount = g.indices.length / 2) ∧
    ((g.prim = .PointList ∨ g.prim = .SpriteList) →
      g.getPrimitiveCount = g.indices.length) := by
  rcases g with ⟨prim, mi, ind, vo, vco, vdo, io, po⟩
  simp only [PrimitiveGroup.getPrimitiveCount] at *
  cases prim <;>
    simp_all [toU32, sizeSubTwoToU32] <;>
    omega

/-- C1 (witness): the amended theorem evaluated on a TriStrip group with
0 indices and on a TriList group with 7 indices. -/
theorem C1_count_witness :
    ({ emptyGroup with prim := .TriStrip } : PrimitiveGroup).getPrimitiveCount
        = 2 ^ 32 - 2 ∧
    ({ emptyGroup with
        prim := .TriList,
        indices := [0, 1, 2, 3, 4, 5, 6] } : PrimitiveGroup).getPrimitiveCount
        = 2 := by
  constructor
  · have h := C1_count_amended { emptyGroup with prim := .TriStrip }
      (by decide)
    simpa using (h.2.1 (Or.inl rfl)).2 (by decide)
  · have h := C1_count_amended
      { emptyGroup with
        prim := .TriList,
        indices := [0, 1, 2, 3, 4, 5, 6] }
      (by norm_num)
    simpa using h.1 rfl

/-- C2 (counterexample): the claim "the sort is stable: batches with equal
material index keep their prior relative order" fails: on the two-group
list `[cgA, cgB]` (equal material index 5, distinct groups), the reversed
list `[cgB, cgA]` is an output `std::sort` is allowed to produce. -/
theorem C2_stable_counterexample :
    aggregateByMaterialPost [cgA, cgB] [cgB, cgA] ∧
    cgA.materialIndex = cgB.materialIndex ∧ cgA ≠ cgB := by
  refine ⟨⟨List.Perm.swap cgB cgA [], ?_⟩, rfl, ?_⟩
  · simp [aggregateByMaterialSorted, materialIndexLess, cgA, cgB, emptyGroup]
  · intro h
    exact absurd (congrArg PrimitiveGroup.indices h)
      (by simp [cgA, cgB, emptyGroup])

/-- C2 (amended): aggregateByMaterial produces a permutation of the mesh's
batch list in ascending order of material index; equal-material batches
need not retain their original relative order (the call is `std::sort`,
whose contract does not include stability). -/
theorem C2_sorted_perm_amended (inp out : List PrimitiveGroup)
    (h : aggregateByMaterialPost inp out) :
    out.Perm inp ∧
    out.Pairwise (fun g0 g1 => g0.materialIndex ≤ g1.materialIndex) := by
  refine ⟨h.1.symm, h.2.imp ?_⟩
  intro g0 g1 hng
  exact Nat.le_of_not_lt hng

/-- C2 (witness): the amended theorem applied to the singleton group list,
which `std::sort` maps to itself. -/
theorem C2_sorted_perm_witness :
    ([cgA] : List PrimitiveGroup).Perm [cgA] ∧
    ([cgA] : List PrimitiveGroup).Pairwise
      (fun g0 g1 => g0.materialIndex ≤ g1.materialIndex) :=
  C2_sorted_perm_amended [cgA] [cgA]
    ⟨List.Perm.refl _, by simp [aggregateByMaterialSorted]⟩

/-- C5: setVertexDescription fails (false, mesh completely unchanged)
exactly when some attribute has a non-4-byte-aligned offset or extends past
the stride, and otherwise succeeds (true) adopting the supplied layout
while leaving the vertex buffer, vertex count and groups intact. -/
theorem C5_setVertexDescription (m : Mesh) (desc : VertexDescription) :
    (desc.validate = false → m.setVertexDescription desc = (false, m)) ∧
    (desc.validate = true →
      (m.setVertexDescription desc).1 = true ∧
      (m.setVertexDescription desc).2.vertexDesc = desc ∧
      (m.setVertexDescription desc).2.nVertices = m.nVertices ∧
      (m.setVertexDescription desc).2.vertices = m.vertices ∧
      (m.setVertexDescription desc).2.groups = m.groups) ∧
    (desc.validate = false ↔ ∃ attr ∈ desc.attributes,
      ¬(attr.offset % 4 = 0 ∧
        attr.offset + getFormatSize attr.format ≤ desc.stride)) := by
  refine ⟨?_, ?_, ?_⟩
  · intro hv
    simp [Mesh.setVertexDescription, hv]
  · intro hv
    simp [Mesh.setVertexDescription, hv]
  · rw [VertexDescription.validate]
    simp [List.all_eq_false, not_and_or]

/-- C5 (witness): a layout whose single Float3 field exceeds a stride of 4
is rejected with the mesh unchanged; the same field with stride 12 is
adopted. -/
theorem C5_setVertexDescription_witness :
    emptyMesh.setVertexDescription
        { stride := 4,
          attributes := [⟨.Position, .Float3, 0⟩] } = (false, emptyMesh) ∧
    (emptyMesh.setVertexDescription
        { stride := 12,
          attributes := [⟨.Position, .Float3, 0⟩] }).1 = true ∧
    (emptyMesh.setVertexDescription
        { stride := 12,
          attributes := [⟨.Position, .Float3, 0⟩] }).2.vertexDesc
      = { stride := 12, attributes := [⟨.Position, .Float3, 0⟩] } := by
  refine ⟨?_, ?_, ?_⟩
  · exact (C5_setVertexDescription emptyMesh _).1 (by decide)
  · exact ((C5_setVertexDescription emptyMesh _).2.1 (by decide)).1
  · exact ((C5_setVertexDescription emptyMesh _).2.1 (by decide)).2.1

/-- C9: getGroup returns none for any index at or past the group count (a
defined no-result answer), and otherwise the index-th group in insertion
order; newly added groups appear at the back without disturbing the
positions of the existing ones. -/
theorem C9_getGroup (m : Mesh) (i : Nat) (g : PrimitiveGroup) :
    (m.groups.length ≤ i → m.getGroup i = none) ∧
    (∀ h : i < m.groups.length, m.getGroup i = some (m.groups.get ⟨i, h⟩)) ∧
    (m.addGroup g).2.getGroup m.groups.length = some g ∧
    (i < m.groups.length → (m.addGroup g).2.getGroup i = m.getGroup i) := by
  refine ⟨?_, ?_, ?_, ?_⟩
  · intro h
    simp [Mesh.getGroup, h]
  · intro h
    simp [Mesh.getGroup, Nat.not_le_of_lt h]
  · simp [Mesh.getGroup, Mesh.addGroup, List.get_append_right]
  · intro h
    simp only [Mesh.getGroup, Mesh.addGroup]
    rw [dif_neg (by simp; omega), dif_neg (by omega)]
    congr 1
    exact List.get_append_left _ _ _

/-- C9 (witness): on a one-group mesh, index 1 is out of range (none),
index 0 returns the group, and after adding a second group the first is
still at position 0 and the new one at position 1. -/
theorem C9_getGroup_witness :
    ({ emptyMesh with groups := [cgA] } : Mesh).getGroup 1 = none ∧
    ({ emptyMesh with groups := [cgA] } : Mesh).getGroup 0 = some cgA ∧
    (({ emptyMesh with groups := [cgA] } : Mesh).addGroup cgB).2.getGroup 1
      = some cgB := by
  have h := C9_getGroup { emptyMesh with groups := [cgA] } 1 cgB
  have h0 := C9_getGroup { emptyMesh with groups := [cgA] } 0 cgB
  refine ⟨h.1 (by decide), ?_, h.2.2.1⟩
  simpa using h0.2.1 (by decide)

/-- C10: remapIndices rewrites only each group's base index sequence (each
index becomes the map's entry for it); group count, override indices,
override vertex buffer, override layout and count, topologies and material
index are all left unchanged. -/
theorem C10_remapIndices (m : Mesh) (indexMap : List Nat) (k : Nat)
    (h : k < m.groups.length) :
    (m.remapIndices indexMap).groups.length = m.groups.length ∧
    ∀ h2 : k < (m.remapIndices indexMap).groups.length,
      ((m.remapIndices indexMap).groups.get ⟨k, h2⟩).indices
          = (m.groups.get ⟨k, h⟩).indices.map
              (fun index => indexMap.getD index 0) ∧
      ((m.remapIndices indexMap).groups.get ⟨k, h2⟩).indicesOverride
          = (m.groups.get ⟨k, h⟩).indicesOverride ∧
      ((m.remapIndices indexMap).groups.get ⟨k, h2⟩).vertexOverride
          = (m.groups.get ⟨k, h⟩).vertexOverride ∧
      ((m.remapIndices indexMap).groups.get ⟨k, h2⟩).vertexCountOverride
          = (m.groups.get ⟨k, h⟩).vertexCountOverride ∧
      ((m.remapIndices indexMap).groups.get ⟨k, h2⟩).vertexDescriptionOverride
          = (m.groups.get ⟨k, h⟩).vertexDescriptionOverride ∧
      ((m.remapIndices indexMap).groups.get ⟨k, h2⟩).prim
          = (m.groups.get ⟨k, h⟩).prim ∧
      ((m.remapIndices indexMap).groups.get ⟨k, h2⟩).primOverride
          = (m.groups.get ⟨k, h⟩).primOverride ∧
      ((m.remapIndices indexMap).groups.get ⟨k, h2⟩).materialIndex
          = (m.groups.get ⟨k, h⟩).materialIndex := by
  refine ⟨by simp [Mesh.remapIndices], ?_⟩
  intro h2
  simp [Mesh.remapIndices, List.get_map]

/-- C10 (witness): remapping a one-group mesh whose group has base indices
[0, 1, 0], override indices [2] and a line-strip topology through the map
[5, 7] rewrites the base indices to [5, 7, 5] and keeps the override
indices and the material. -/
theorem C10_remapIndices_witness :
    ((({ emptyMesh with
         groups := [{ emptyGroup with
                      prim := .LineStrip,
                      materialIndex := 3,
                      indices := [0, 1, 0],
                      indicesOverride := [2] }] } : Mesh).remapIndices
        [5, 7]).groups.get ⟨0, by simp [Mesh.remapIndices]⟩).indices
        = [5, 7, 5] ∧
    ((({ emptyMesh with
         groups := [{ emptyGroup with
                      prim := .LineStrip,
                      materialIndex := 3,
                      indices := [0, 1, 0],
                      indicesOverride := [2] }] } : Mesh).remapIndices
        [5, 7]).groups.get ⟨0, by simp [Mesh.remapIndices]⟩).indicesOverride
        = [2] ∧
    ((({ emptyMesh with
         groups := [{ emptyGroup with
                      prim := .LineStrip,
                      materialIndex := 3,
                      indices := [0, 1, 0],
                      indicesOverride := [2] }] } : Mesh).remapIndices
        [5, 7]).groups.get ⟨0, by simp [Mesh.remapIndices]⟩).materialIndex
        = 3 := by
  have h := C10_remapIndices
    { emptyMesh with
      groups := [{ emptyGroup with
                   prim := .LineStrip,
                   materialIndex := 3,
                   indices := [0, 1, 0],
                   indicesOverride := [2] }] }
    [5, 7] 0 (by simp)
  have h2 := h.2 (by simp [Mesh.remapIndices])
  obtain ⟨hi, hio, hvo, hvc, hvd, hp, hpo, hm⟩ := h2
  exact ⟨by rw [hi]; rfl, by rw [hio]; rfl, by rw [hm]; rfl⟩

/-- Helper: a left fold that accumulates byte sizes equals the start value
plus the sum of the sizes. -/
theorem foldl_add_formatSize (l : List VertexAttribute) (init : Nat) :
    l.foldl (fun acc a => acc + getFormatSize a.format) init
      = init + (l.map (fun a => getFormatSize a.format)).sum := by
  induction l generalizing init with
  | nil => simp
  | cons a t ih => simp [ih, Nat.add_assoc]

/-- C8: appending fields yields the original field sequence followed by the
new fields, stride grown by the sum of the new formats' sizes; the pair of
fields built by line expansion sits at offsets originalStride and
originalStride + positionSize; afterwards the semantic lookup returns each
newly appended field (at an offset ≥ the original stride) and is unchanged
for every other semantic, and the original fields are untouched in the
sequence. -/
theorem C8_appendedFields (desc : VertexDescription)
    (newAttrs : List VertexAttribute) (hv : desc.validate = true) :
    ((appendingAttributes desc newAttrs).attributes
        = desc.attributes ++ newAttrs) ∧
    ((appendingAttributes desc newAttrs).stride
        = desc.stride
            + (newAttrs.map (fun a => getFormatSize a.format)).sum) ∧
    ((lineNewAttributes desc).map VertexAttribute.offset
        = [desc.stride,
           desc.stride + getFormatSize (desc.getAttribute .Position).format]) ∧
    ((appendingAttributes desc (lineNewAttributes desc)).getAttribute
          .NextPosition
        = { semantic := .NextPosition,
            format := (desc.getAttribute .Position).format,
            offset := desc.stride }) ∧
    ((appendingAttributes desc (lineNewAttributes desc)).getAttribute
          .ScaleFactor
        = { semantic := .ScaleFactor, format := .Float1,
            offset := desc.stride
                + getFormatSize (desc.getAttribute .Position).format }) ∧
    (∀ s, s ≠ .NextPosition → s ≠ .ScaleFactor →
      (appendingAttributes desc (lineNewAttributes desc)).getAttribute s
        = desc.getAttribute s) := by
  refine ⟨rfl, foldl_add_formatSize newAttrs desc.stride, ?_, ?_, ?_, ?_⟩
  · simp [lineNewAttributes]
  · simp [appendingAttributes, VertexDescription.getAttribute,
      buildSemanticMap, List.foldl_append, lineNewAttributes]
  · simp [appendingAttributes, VertexDescription.getAttribute,
      buildSemanticMap, List.foldl_append, lineNewAttributes]
  · intro s hn hs
    simp [appendingAttributes, VertexDescription.getAttribute,
      buildSemanticMap, List.foldl_append, lineNewAttributes, hn, hs]

/-- C8 (witness): appending to a valid two-field layout (Float3 Position at
0, Float1 PointSize at 12, stride 16): NextPosition lands at offset 16,
ScaleFactor at 28, stride becomes 32, and the Position lookup is
unchanged. -/
theorem C8_appendedFields_witness :
    ((appendingAttributes
        { stride := 16,
          attributes := [⟨.Position, .Float3, 0⟩, ⟨.PointSize, .Float1, 12⟩] }
        (lineNewAttributes
          { stride := 16,
            attributes := [⟨.Position, .Float3, 0⟩,
                           ⟨.PointSize, .Float1, 12⟩] })).getAttribute
        .NextPosition).offset = 16 ∧
    ((appendingAttributes
        { stride := 16,
          attributes := [⟨.Position, .Float3, 0⟩, ⟨.PointSize, .Float1, 12⟩] }
        (lineNewAttributes
          { stride := 16,
            attributes := [⟨.Position, .Float3, 0⟩,
                           ⟨.PointSize, .Float1, 12⟩] })).getAttribute
        .ScaleFactor).offset = 28 ∧
    ((appendingAttributes
        { stride := 16,
          attributes := [⟨.Position, .Float3, 0⟩, ⟨.PointSize, .Float1, 12⟩] }
        (lineNewAttributes
          { stride := 16,
            attributes := [⟨.Position, .Float3, 0⟩,
                           ⟨.PointSize, .Float1, 12⟩] })).getAttribute
        .Position
      = ⟨.Position, .Float3, 0⟩) := by
  have h := C8_appendedFields
    { stride := 16,
      attributes := [⟨.Position, .Float3, 0⟩, ⟨.PointSize, .Float1, 12⟩] }
    [] (by decide)
  refine ⟨?_, ?_, ?_⟩
  · rw [h.2.2.2.1]
  · rw [h.2.2.2.2.1]
    decide
  · rw [h.2.2.2.2.2 .Position (by decide) (by decide)]
    decide

/-- C3 (code bug): pick's walker is broken for strips and fans. On a
TriStrip batch with indices [0, 1, 2] (n = 3) it examines 3 triangles
instead of n − 2 = 1, and from the second step onward reads the index at
the advanced loop position itself rather than two past it, producing the
degenerate triples (1, 2, 1) and (2, 1, 2) instead of strip adjacency.
On a TriFan batch with indices [0, 1, 2, 3] (n = 4) it examines the
triples (0, 1, 2) and (0, 2, 2) — not fan adjacency — and reads index
position 4, one past the end of the index sequence.  The gating conjunct
of the claim does hold: a TriList batch with 4 indices and a non-triangle
batch are not walked. -/
theorem C3_pick_walker_bug :
    pickWalkGroup .TriStrip [0, 1, 2]
        = ([(0, 1, 2), (1, 2, 1), (2, 1, 2)], [0, 1, 2, 1, 2]) ∧
    (pickWalkGroup .TriStrip [0, 1, 2]).1.length ≠ 3 - 2 ∧
    pickWalkGroup .TriFan [0, 1, 2, 3]
        = ([(0, 1, 2), (0, 2, 2)], [0, 1, 2, 2, 4]) ∧
    4 ∈ (pickWalkGroup .TriFan [0, 1, 2, 3]).2 ∧
    pickWalkGroup .TriList [0, 1, 2, 3] = ([], []) ∧
    pickWalkGroup .LineStrip [0, 1, 2] = ([], []) := by
  refine ⟨?_, ?_, ?_, ?_, ?_, ?_⟩ <;>
    simp [pickWalkGroup, pickWalkAux, pickNextTri, pickNextIndex]

/-- Helper: a byte slice that fits inside the buffer has exactly the
requested length. -/
theorem byteSlice_length (data : List Nat) (start len : Nat)
    (h : start + len ≤ data.length) :
    (byteSlice data start len).length = len := by
  simp [byteSlice]
  omega

/-- Helper: slicing a concatenation of `n` equal-length chunks at chunk
`k`, inner offset `off`, width `m` (with `off + m` inside the chunk) reads
inside chunk `k` alone. -/
theorem flatMap_range_slice (L n : Nat) :
    ∀ (f : Nat → List Nat) (k off m : Nat), k < n → off + m ≤ L →
      (∀ i, i < n → (f i).length = L) →
      (((List.range n).flatMap f).drop (k * L + off)).take m
        = ((f k).drop off).take m := by
  induction n with
  | zero =>
    intro f k off m hk
    exact absurd hk (Nat.not_lt_zero k)
  | succ n ih =>
    intro f k off m hk hoff hlen
    rw [List.range_succ_eq_map, List.flatMap_cons, List.flatMap_map]
    have hL0 : (f 0).length = L := hlen 0 (Nat.succ_pos n)
    cases k with
    | zero =>
      rw [Nat.zero_mul, Nat.zero_add]
      rw [List.drop_append_of_le_length (by omega)]
      rw [List.take_append_of_le_length (by simp; omega)]
    | succ k =>
      have harith : (k + 1) * L + off = (f 0).length + (k * L + off) := by
        rw [hL0]; ring
      rw [harith, List.drop_append]
      exact ih (fun i => f (i + 1)) k off m (by omega) hoff
        (fun i hi => hlen (i + 1) (by omega))

/-- Helper: total length of a concatenation of `n` equal-length chunks. -/
theorem flatMap_range_length (L n : Nat) (f : Nat → List Nat)
    (hlen : ∀ i, i < n → (f i).length = L) :
    ((List.range n).flatMap f).length = n * L := by
  induction n with
  | zero => simp
  | succ n ih =>
    rw [List.range_succ, List.flatMap_append]
    simp only [List.length_append]
    rw [ih (fun i hi => hlen i (by omega))]
    simp [hlen n (by omega)]
    ring

/-- Helper: the four chunk slices of a four-chunk concatenation. -/
theorem append4_chunks (a b c d : List Nat) (L : Nat)
    (ha : a.length = L) (hb : b.length = L) (hc : c.length = L)
    (hd : d.length = L) :
    (a ++ b ++ c ++ d).take L = a ∧
    ((a ++ b ++ c ++ d).drop L).take L = b ∧
    ((a ++ b ++ c ++ d).drop (2 * L)).take L = c ∧
    ((a ++ b ++ c ++ d).drop (3 * L)).take L = d := by
  have ta : a.take L = a := by rw [← ha, List.take_length]
  have tb : b.take L = b := by rw [← hb, List.take_length]
  have tc : c.take L = c := by rw [← hc, List.take_length]
  refine ⟨?_, ?_, ?_, ?_⟩
  · rw [List.append_assoc, List.append_assoc]
    rw [List.take_append_of_le_length (by omega), ta]
  · rw [List.append_assoc, List.append_assoc]
    rw [List.drop_left' ha]
    rw [List.take_append_of_le_length (by omega), tb]
  · have hsplit : a ++ b ++ c ++ d = (a ++ b) ++ (c ++ d) := by
      simp [List.append_assoc]
    have hab : (a ++ b).length = 2 * L := by
      simp [ha, hb]
      ring
    rw [hsplit, List.drop_left' hab]
    rw [List.take_append_of_le_length (by omega), tc]
  · have habc : (a ++ b ++ c).length = 3 * L := by
      simp [ha, hb, hc]
      ring
    rw [List.drop_left' habc]
    rw [← hd, List.take_length]

/-- Helper: one expanded line vertex occupies the widened stride
originalStride + positionSize + 4. -/
theorem lineVertexBytes_length (originalData : List Nat)
    (os po ps e o nVerts : Nat) (scaleBytes : List Nat)
    (hdata : originalData.length = nVerts * os)
    (he : e < nVerts) (ho : o < nVerts) (hfit : po + ps ≤ os)
    (hsb : scaleBytes.length = 4) :
    (lineVertexBytes originalData os po ps e o scaleBytes).length
      = os + ps + 4 := by
  have h1 : e * os + os ≤ nVerts * os := by
    have hstep : (e + 1) * os ≤ nVerts * os :=
      Nat.mul_le_mul_right os he
    calc e * os + os = (e + 1) * os := by ring
      _ ≤ nVerts * os := hstep
  have h2 : o * os + po + ps ≤ nVerts * os := by
    have hstep : (o + 1) * os ≤ nVerts * os :=
      Nat.mul_le_mul_right os ho
    have h3 : o * os + os ≤ nVerts * os := by
      calc o * os + os = (o + 1) * os := by ring
        _ ≤ nVerts * os := hstep
    omega
  rw [lineVertexBytes, List.length_append, List.length_append]
  rw [byteSlice_length originalData _ _ (by omega)]
  rw [byteSlice_length originalData _ _ (by omega)]
  omega

/-- Helper: one expanded segment occupies 4 widened-stride records. -/
theorem lineSegmentBytes_length (originalData : List Nat)
    (os po ps tIdx nIdx nVerts : Nat)
    (hdata : originalData.length = nVerts * os)
    (ht : tIdx < nVerts) (hn : nIdx < nVerts) (hfit : po + ps ≤ os) :
    (lineSegmentBytes originalData os po ps tIdx nIdx).length
      = 4 * (os + ps + 4) := by
  rw [lineSegmentBytes, List.length_append, List.length_append,
    List.length_append]
  rw [lineVertexBytes_length originalData os po ps tIdx nIdx nVerts
    negHalfBytes hdata ht hn hfit rfl]
  rw [lineVertexBytes_length originalData os po ps tIdx nIdx nVerts
    posHalfBytes hdata ht hn hfit rfl]
  rw [lineVertexBytes_length originalData os po ps nIdx tIdx nVerts
    negHalfBytes hdata hn ht hfit rfl]
  rw [lineVertexBytes_length originalData os po ps nIdx tIdx nVerts
    posHalfBytes hdata hn ht hfit rfl]
  ring

/-- Helper: for a segment number below the line count, both endpoint
lookups read in-range positions, so the endpoint indices are values of the
index list. -/
theorem lineEndpointIndex_lt (lineStrip : Bool) (indices : List Nat)
    (nVerts i : Nat) (hidx : ∀ v ∈ indices, v < nVerts)
    (hi : i < lineCountOf lineStrip indices) :
    lineThisIndex lineStrip indices i < nVerts ∧
    lineNextIndex lineStrip indices i < nVerts := by
  rw [lineCountOf] at hi
  constructor
  · rw [lineThisIndex]
    cases lineStrip with
    | true =>
      simp only [reduceIte]
      simp only [reduceIte] at hi
      have hlt : i < indices.length := by omega
      rw [List.getD_eq_getElem indices 0 hlt]
      exact hidx _ (List.getElem_mem hlt)
    | false =>
      simp only [Bool.false_eq_true, reduceIte]
      simp only [Bool.false_eq_true, reduceIte] at hi
      have hlt : i * 2 < indices.length := by omega
      rw [List.getD_eq_getElem indices 0 hlt]
      exact hidx _ (List.getElem_mem hlt)
  · rw [lineNextIndex]
    cases lineStrip with
    | true =>
      simp only [reduceIte]
      simp only [reduceIte] at hi
      have hlt : i + 1 < indices.length := by omega
      rw [List.getD_eq_getElem indices 0 hlt]
      exact hidx _ (List.getElem_mem hlt)
    | false =>
      simp only [Bool.false_eq_true, reduceIte]
      simp only [Bool.false_eq_true, reduceIte] at hi
      have hlt : i * 2 + 1 < indices.length := by omega
      rw [List.getD_eq_getElem indices 0 hlt]
      exact hidx _ (List.getElem_mem hlt)

/-- C4: line expansion emits, for each of the lineCount segments (strip:
N−1, list: N/2), exactly 4 output vertices in the order (thisEnd, −0.5),
(thisEnd, +0.5), (otherEnd, −0.5), (otherEnd, +0.5) — each a byte copy of
its endpoint's full record, then the other endpoint's position bytes, then
the scale bytes — and 6 indices per segment forming the triangles
(0,1,2),(2,3,0) relative to the segment's 4-vertex base, with override
topology TriList, 4·lineCount override vertices (buffer of lineCount·4
widened-stride records) and an override layout equal to the original plus
NextPosition and ScaleFactor. -/
theorem C4_lineExpansion (desc : VertexDescription)
    (originalData : List Nat) (lineStrip : Bool) (indices : List Nat)
    (nVerts : Nat)
    (hstrip : lineStrip = true → 1 ≤ indices.length)
    (hdata : originalData.length = nVerts * desc.stride)
    (hidx : ∀ v ∈ indices, v < nVerts)
    (hfit : (desc.getAttribute .Position).offset
        + getFormatSize (desc.getAttribute .Position).format ≤ desc.stride) :
    (createLinePrimitiveGroup desc originalData lineStrip
        indices).primOverride = .TriList ∧
    (createLinePrimitiveGroup desc originalData lineStrip
        indices).vertexCountOverride = 4 * lineCountOf lineStrip indices ∧
    (createLinePrimitiveGroup desc originalData lineStrip
        indices).vertexDescriptionOverride.attributes
        = desc.attributes ++ lineNewAttributes desc ∧
    (createLinePrimitiveGroup desc originalData lineStrip
        indices).vertexDescriptionOverride.stride = lineStrideOf desc ∧
    (createLinePrimitiveGroup desc originalData lineStrip
        indices).vertexOverride.length
        = lineCountOf lineStrip indices * (4 * lineStrideOf desc) ∧
    (createLinePrimitiveGroup desc originalData lineStrip
        indices).indicesOverride.length
        = lineCountOf lineStrip indices * 6 ∧
    ∀ k, k < lineCountOf lineStrip indices →
      ((createLinePrimitiveGroup desc originalData lineStrip
          indices).indicesOverride.drop (k * 6)).take 6
          = [4 * k, 4 * k + 1, 4 * k + 2, 4 * k + 2, 4 * k + 3, 4 * k] ∧
      byteSlice (createLinePrimitiveGroup desc originalData lineStrip
          indices).vertexOverride ((4 * k) * lineStrideOf desc)
          (lineStrideOf desc)
        = lineVertexBytes originalData desc.stride
            (desc.getAttribute .Position).offset
            (getFormatSize (desc.getAttribute .Position).format)
            (lineThisIndex lineStrip indices k)
            (lineNextIndex lineStrip indices k) negHalfBytes ∧
      byteSlice (createLinePrimitiveGroup desc originalData lineStrip
          indices).vertexOverride ((4 * k + 1) * lineStrideOf desc)
          (lineStrideOf desc)
        = lineVertexBytes originalData desc.stride
            (desc.getAttribute .Position).offset
            (getFormatSize (desc.getAttribute .Position).format)
            (lineThisIndex lineStrip indices k)
            (lineNextIndex lineStrip indices k) posHalfBytes ∧
      byteSlice (createLinePrimitiveGroup desc originalData lineStrip
          indices).vertexOverride ((4 * k + 2) * lineStrideOf desc)
          (lineStrideOf desc)
        = lineVertexBytes originalData desc.stride
            (desc.getAttribute .Position).offset
            (getFormatSize (desc.getAttribute .Position).format)
            (lineNextIndex lineStrip indices k)
            (lineThisIndex lineStrip indices k) negHalfBytes ∧
      byteSlice (createLinePrimitiveGroup desc originalData lineStrip
          indices).vertexOverride ((4 * k + 3) * lineStrideOf desc)
          (lineStrideOf desc)
        = lineVertexBytes originalData desc.stride
            (desc.getAttribute .Position).offset
            (getFormatSize (desc.getAttribute .Position).format)
            (lineNextIndex lineStrip indices k)
            (lineThisIndex lineStrip indices k) posHalfBytes := by
  have hlen : ∀ i, i < lineCountOf lineStrip indices →
      (lineSegmentBytes originalData desc.stride
        (desc.getAttribute .Position).offset
        (getFormatSize (desc.getAttribute .Position).format)
        (lineThisIndex lineStrip indices i)
        (lineNextIndex lineStrip indices i)).length
      = 4 * lineStrideOf desc := by
    intro i hi
    obtain ⟨ht, hn⟩ := lineEndpointIndex_lt lineStrip indices nVerts i hidx hi
    rw [lineStrideOf]
    exact lineSegmentBytes_length originalData desc.stride _ _ _ _ nVerts
      hdata ht hn hfit
  refine ⟨rfl, rfl, rfl, rfl, ?_, ?_, ?_⟩
  · simp only [createLinePrimitiveGroup]
    exact flatMap_range_length (4 * lineStrideOf desc)
      (lineCountOf lineStrip indices) _ hlen
  · simp only [createLinePrimitiveGroup]
    exact flatMap_range_length 6 (lineCountOf lineStrip indices) _
      (fun i _ => rfl)
  · intro k hk
    obtain ⟨ht, hn⟩ := lineEndpointIndex_lt lineStrip indices nVerts k hidx hk
    have hA := lineVertexBytes_length originalData desc.stride
      (desc.getAttribute .Position).offset
      (getFormatSize (desc.getAttribute .Position).format)
      (lineThisIndex lineStrip indices k) (lineNextIndex lineStrip indices k)
      nVerts negHalfBytes hdata ht hn hfit rfl
    have hB := lineVertexBytes_length originalData desc.stride
      (desc.getAttribute .Position).offset
      (getFormatSize (desc.getAttribute .Position).format)
      (lineThisIndex lineStrip indices k) (lineNextIndex lineStrip indices k)
      nVerts posHalfBytes hdata ht hn hfit rfl
    have hC := lineVertexBytes_length originalData desc.stride
      (desc.getAttribute .Position).offset
      (getFormatSize (desc.getAttribute .Position).format)
      (lineNextIndex lineStrip indices k) (lineThisIndex lineStrip indices k)
      nVerts negHalfBytes hdata hn ht hfit rfl
    have hD := lineVertexBytes_length originalData desc.stride
      (desc.getAttribute .Position).offset
      (getFormatSize (desc.getAttribute .Position).format)
      (lineNextIndex lineStrip indices k) (lineThisIndex lineStrip indices k)
      nVerts posHalfBytes hdata hn ht hfit rfl
    have hS : lineStrideOf desc
        = desc.stride + getFormatSize (desc.getAttribute .Position).format
          + 4 := rfl
    have chunks := append4_chunks _ _ _ _ (lineStrideOf desc)
      (by rw [hA, hS]) (by rw [hB, hS]) (by rw [hC, hS]) (by rw [hD, hS])
    refine ⟨?_, ?_, ?_, ?_, ?_⟩
    · simp only [createLinePrimitiveGroup]
      have hs := flatMap_range_slice 6 (lineCountOf lineStrip indices)
        (fun i => [4 * i, 4 * i + 1, 4 * i + 2, 4 * i + 2, 4 * i + 3, 4 * i])
        k 0 6 hk (by omega) (fun i _ => rfl)
      rw [Nat.add_zero] at hs
      rw [hs, List.drop_zero]
      rfl
    · simp only [createLinePrimitiveGroup, byteSlice]
      have e0 : (4 * k) * lineStrideOf desc
          = k * (4 * lineStrideOf desc) + 0 := by ring
      rw [e0, flatMap_range_slice (4 * lineStrideOf desc)
        (lineCountOf lineStrip indices) _ k 0 (lineStrideOf desc) hk
        (by omega) hlen]
      rw [List.drop_zero, lineSegmentBytes]
      exact chunks.1
    · simp only [createLinePrimitiveGroup, byteSlice]
      have e1 : (4 * k + 1) * lineStrideOf desc
          = k * (4 * lineStrideOf desc) + lineStrideOf desc := by ring
      rw [e1, flatMap_range_slice (4 * lineStrideOf desc)
        (lineCountOf lineStrip indices) _ k (lineStrideOf desc)
        (lineStrideOf desc) hk (by omega) hlen]
      rw [lineSegmentBytes]
      exact chunks.2.1
    · simp only [createLinePrimitiveGroup, byteSlice]
      have e2 : (4 * k + 2) * lineStrideOf desc
          = k * (4 * lineStrideOf desc) + 2 * lineStrideOf desc := by ring
      rw [e2, flatMap_range_slice (4 * lineStrideOf desc)
        (lineCountOf lineStrip indices) _ k (2 * lineStrideOf desc)
        (lineStrideOf desc) hk (by omega) hlen]
      rw [lineSegmentBytes]
      exact chunks.2.2.1
    · simp only [createLinePrimitiveGroup, byteSlice]
      have e3 : (4 * k + 3) * lineStrideOf desc
          = k * (4 * lineStrideOf desc) + 3 * lineStrideOf desc := by ring
      rw [e3, flatMap_range_slice (4 * lineStrideOf desc)
        (lineCountOf lineStrip indices) _ k (3 * lineStrideOf desc)
        (lineStrideOf desc) hk (by omega) hlen]
      rw [lineSegmentBytes]
      exact chunks.2.2.2

/-- C4 (witness): expanding the 2-index IndependentLines batch [0, 1] over
a 2-vertex Float3-position buffer yields 4 override vertices and the 6
indices (0,1,2),(2,3,0); output vertex 0 is vertex 0's record, vertex 1's
position bytes, then the −0.5 bytes; output vertex 2 is vertex 1's record,
vertex 0's position bytes, then the −0.5 bytes; output vertex 1 carries
the +0.5 bytes. -/
theorem C4_lineExpansion_witness :
    (createLinePrimitiveGroup lineDescW lineDataW false
        [0, 1]).vertexCountOverride = 4 ∧
    ((createLinePrimitiveGroup lineDescW lineDataW false
        [0, 1]).indicesOverride.drop 0).take 6 = [0, 1, 2, 2, 3, 0] ∧
    byteSlice (createLinePrimitiveGroup lineDescW lineDataW false
        [0, 1]).vertexOverride 0 28
      = [10, 11, 12, 13, 20, 21, 22, 23, 30, 31, 32, 33,
         40, 41, 42, 43, 50, 51, 52, 53, 60, 61, 62, 63,
         0, 0, 0, 191] ∧
    byteSlice (createLinePrimitiveGroup lineDescW lineDataW false
        [0, 1]).vertexOverride 28 28
      = [10, 11, 12, 13, 20, 21, 22, 23, 30, 31, 32, 33,
         40, 41, 42, 43, 50, 51, 52, 53, 60, 61, 62, 63,
         0, 0, 0, 63] ∧
    byteSlice (createLinePrimitiveGroup lineDescW lineDataW false
        [0, 1]).vertexOverride 56 28
      = [40, 41, 42, 43, 50, 51, 52, 53, 60, 61, 62, 63,
         10, 11, 12, 13, 20, 21, 22, 23, 30, 31, 32, 33,
         0, 0, 0, 191] := by
  have h := C4_lineExpansion lineDescW lineDataW false [0, 1] 2
    (by decide) (by decide) (by decide) (by decide)
  have h0 := h.2.2.2.2.2.2 0 (by decide)
  refine ⟨h.2.1.trans (by decide), ?_, ?_, ?_, ?_⟩
  · have := h0.1
    simpa using this
  · have := h0.2.1
    rw [show 4 * 0 * lineStrideOf lineDescW = 0 from by decide] at this
    rw [show lineStrideOf lineDescW = 28 from by decide] at this
    rw [this]
    decide
  · have := h0.2.2.1
    rw [show (4 * 0 + 1) * lineStrideOf lineDescW = 28 from by decide] at this
    rw [show lineStrideOf lineDescW = 28 from by decide] at this
    rw [this]
    decide
  · have := h0.2.2.2.1
    rw [show (4 * 0 + 2) * lineStrideOf lineDescW = 56 from by decide] at this
    rw [show lineStrideOf lineDescW = 28 from by decide] at this
    rw [this]
    decide

/-- Helper: a semantic-map slot holds either an attribute of that semantic
or the untouched sentinel (so an absent Position can never present a
Float3 format). -/
theorem semanticMap_slot (attrs : List VertexAttribute)
    (s : VertexAttributeSemantic) :
    (buildSemanticMap attrs s).semantic = s ∨
      buildSemanticMap attrs s = defaultVertexAttribute := by
  rw [buildSemanticMap]
  suffices h : ∀ init : VertexAttributeSemantic → VertexAttribute,
      ((init s).semantic = s ∨ init s = defaultVertexAttribute) →
      ((attrs.foldl
          (fun m attr => fun x => if x = attr.semantic then attr else m x)
          init) s).semantic = s ∨
        (attrs.foldl
          (fun m attr => fun x => if x = attr.semantic then attr else m x)
          init) s = defaultVertexAttribute by
    exact h _ (Or.inr rfl)
  induction attrs with
  | nil => intro init hinit; exact hinit
  | cons a tail ih =>
    intro init hinit
    apply ih
    by_cases hx : s = a.semantic
    · left
      simp [hx]
    · simpa [hx] using hinit

/-- C6: when the layout has no Float3 Position field (the lookup slot
either holds a wrong-format attribute or the absent sentinel, whose format
is InvalidFormat), pick answers false immediately, the bounding box is
empty, and transform returns the mesh unchanged. -/
theorem C6_missing_position (m : Mesh) (rayOrigin rayDirection
    translation : Vec3) (scale : ℚ)
    (h : (m.vertexDesc.getAttribute .Position).format ≠ .Float3) :
    m.pick rayOrigin rayDirection = false ∧
    m.getBoundingBox = none ∧
    m.transform translation scale = m := by
  refine ⟨?_, ?_, ?_⟩
  · rw [Mesh.pick, if_pos (Or.inr h)]
  · rw [Mesh.getBoundingBox, if_pos h]
  · rw [Mesh.transform, if_pos h]

/-- C6 (witness): on a mesh whose layout has a Float2 Position (wrong
format) and one TriList group, all three queries give their no-result
answers. -/
theorem C6_missing_position_witness :
    ({ emptyMesh with
       vertexDesc := { stride := 8, attributes := [⟨.Position, .Float2, 0⟩] },
       groups := [{ emptyGroup with indices := [0, 0, 0] }] } : Mesh).pick
        (0, 0, 0) (1, 0, 0) = false ∧
    ({ emptyMesh with
       vertexDesc := { stride := 8, attributes := [⟨.Position, .Float2, 0⟩] },
       groups := [{ emptyGroup with
                    indices := [0, 0, 0] }] } : Mesh).getBoundingBox
        = none ∧
    ({ emptyMesh with
       vertexDesc := { stride := 8, attributes := [⟨.Position, .Float2, 0⟩] },
       groups := [{ emptyGroup with indices := [0, 0, 0] }] } : Mesh).transform
        (1, 0, 0) 2
      = { emptyMesh with
          vertexDesc := { stride := 8, attributes := [⟨.Position, .Float2, 0⟩] },
          groups := [{ emptyGroup with indices := [0, 0, 0] }] } :=
  C6_missing_position _ (0, 0, 0) (1, 0, 0) (1, 0, 0) 2 (by decide)

/-- Helper: a 3-word write read back at its own base yields the written
vector's words. -/
theorem writeVec3_read_at (buf : Nat → ℚ) (o : Nat) (v : Vec3) :
    writeVec3 buf o v o = v.1 ∧
    writeVec3 buf o v (o + 4) = v.2.1 ∧
    writeVec3 buf o v (o + 8) = v.2.2 := by
  refine ⟨?_, ?_, ?_⟩ <;> simp only [writeVec3]
  · rw [Function.update_noteq (by omega), Function.update_noteq (by omega),
      Function.update_same]
  · rw [Function.update_noteq (by omega), Function.update_same]
  · rw [Function.update_same]

/-- Helper: a 3-word write leaves every other word unchanged. -/
theorem writeVec3_outside (buf : Nat → ℚ) (o : Nat) (v : Vec3) (q : Nat)
    (h0 : q ≠ o) (h4 : q ≠ o + 4) (h8 : q ≠ o + 8) :
    writeVec3 buf o v q = buf q := by
  simp only [writeVec3]
  rw [Function.update_noteq h8, Function.update_noteq h4,
    Function.update_noteq h0]

/-- Helper: reading back a freshly written vector returns it. -/
theorem readVec3_writeVec3 (buf : Nat → ℚ) (o : Nat) (v : Vec3) :
    readVec3 (writeVec3 buf o v) o = v := by
  have h := writeVec3_read_at buf o v
  simp [readVec3, h.1, h.2.1, h.2.2]

/-- Helper: two in-record field addresses coincide only for the same record
and the same in-record offset. -/
theorem record_field_ne (st x y i j : Nat) (hx : x < st) (hy : y < st)
    (hne : i ≠ j ∨ x ≠ y) : i * st + x ≠ j * st + y := by
  intro hEq
  by_cases hij : i = j
  · subst hij
    have hxy : x ≠ y := by tauto
    omega
  · rcases Nat.lt_or_ge i j with h | h
    · have h2 : (i + 1) * st ≤ j * st := Nat.mul_le_mul_right st (by omega)
      rw [Nat.succ_mul] at h2
      omega
    · have h2 : (j + 1) * st ≤ i * st := Nat.mul_le_mul_right st (by omega)
      rw [Nat.succ_mul] at h2
      omega

/-- Helper: one-step unfolding of the position-transform loop. -/
theorem transformPositionsLoop_succ (st po : Nat) (t : Vec3) (s : ℚ)
    (n : Nat) (buf : Nat → ℚ) :
    transformPositionsLoop st po t s (n + 1) buf
      = writeVec3 (transformPositionsLoop st po t s n buf) (n * st + po)
          (transformVec
            (readVec3 (transformPositionsLoop st po t s n buf)
              (n * st + po)) t s) := by
  rw [transformPositionsLoop, transformPositionsLoop, List.range_succ,
    List.foldl_append, List.foldl_cons, List.foldl_nil]

/-- Helper: the position-transform loop leaves words outside every
position region unchanged. -/
theorem transformPositionsLoop_outside (st po : Nat) (t : Vec3) (s : ℚ) :
    ∀ (n : Nat) (buf : Nat → ℚ) (q : Nat),
      (∀ i, i < n →
        q ≠ i * st + po ∧ q ≠ i * st + po + 4 ∧ q ≠ i * st + po + 8) →
      transformPositionsLoop st po t s n buf q = buf q := by
  intro n
  induction n with
  | zero => intro buf q hq; rfl
  | succ n ih =>
    intro buf q hq
    rw [transformPositionsLoop_succ]
    have hn := hq n (by omega)
    rw [writeVec3_outside _ _ _ _ hn.1 hn.2.1 hn.2.2]
    exact ih buf q (fun i hi => hq i (by omega))

/-- Helper: the position-transform loop maps each record's position vector
to its transform. -/
theorem transformPositionsLoop_read (st po : Nat) (t : Vec3) (s : ℚ)
    (hfit : po + 12 ≤ st) :
    ∀ (n : Nat) (buf : Nat → ℚ) (i : Nat), i < n →
      readVec3 (transformPositionsLoop st po t s n buf) (i * st + po)
        = transformVec (readVec3 buf (i * st + po)) t s := by
  intro n
  induction n with
  | zero => intro buf i hi; exact absurd hi (Nat.not_lt_zero i)
  | succ n ih =>
    intro buf i hi
    rw [transformPositionsLoop_succ]
    by_cases hin : i = n
    · subst hin
      rw [readVec3_writeVec3]
      have houtside : readVec3 (transformPositionsLoop st po t s i buf)
          (i * st + po) = readVec3 buf (i * st + po) := by
        simp only [readVec3]
        rw [transformPositionsLoop_outside st po t s i buf (i * st + po)
          (fun j hj => ⟨by
            have := record_field_ne st po po i j (by omega) (by omega)
              (Or.inl (by omega))
            omega, by
            have := record_field_ne st po (po + 4) i j (by omega) (by omega)
              (Or.inl (by omega))
            omega, by
            have := record_field_ne st po (po + 8) i j (by omega) (by omega)
              (Or.inl (by omega))
            omega⟩)]
        rw [transformPositionsLoop_outside st po t s i buf (i * st + po + 4)
          (fun j hj => ⟨by
            have := record_field_ne st (po + 4) po i j (by omega) (by omega)
              (Or.inl (by omega))
            omega, by
            have := record_field_ne st (po + 4) (po + 4) i j (by omega)
              (by omega) (Or.inl (by omega))
            omega, by
            have := record_field_ne st (po + 4) (po + 8) i j (by omega)
              (by omega) (Or.inl (by omega))
            omega⟩)]
        rw [transformPositionsLoop_outside st po t s i buf (i * st + po + 8)
          (fun j hj => ⟨by
            have := record_field_ne st (po + 8) po i j (by omega) (by omega)
              (Or.inl (by omega))
            omega, by
            have := record_field_ne st (po + 8) (po + 4) i j (by omega)
              (by omega) (Or.inl (by omega))
            omega, by
            have := record_field_ne st (po + 8) (po + 8) i j (by omega)
              (by omega) (Or.inl (by omega))
            omega⟩)]
      rw [houtside]
    · have hlt : i < n := by omega
      have hne0 : i * st + po ≠ n * st + po := by
        have := record_field_ne st po po i n (by omega) (by omega)
          (Or.inl hin)
        omega
      have hne4 : i * st + po + 4 ≠ n * st + po + 4 := by
        have := record_field_ne st (po + 4) (po + 4) i n (by omega)
          (by omega) (Or.inl hin)
        omega
      have hne8 : i * st + po + 8 ≠ n * st + po + 8 := by
        have := record_field_ne st (po + 8) (po + 8) i n (by omega)
          (by omega) (Or.inl hin)
        omega
      have hne04 : i * st + po ≠ n * st + po + 4 := by
        have := record_field_ne st po (po + 4) i n (by omega) (by omega)
          (Or.inl hin)
        omega
      have hne08 : i * st + po ≠ n * st + po + 8 := by
        have := record_field_ne st po (po + 8) i n (by omega) (by omega)
          (Or.inl hin)
        omega
      have hne40 : i * st + po + 4 ≠ n * st + po := by
        have := record_field_ne st (po + 4) po i n (by omega) (by omega)
          (Or.inl hin)
        omega
      have hne48 : i * st + po + 4 ≠ n * st + po + 8 := by
        have := record_field_ne st (po + 4) (po + 8) i n (by omega)
          (by omega) (Or.inl hin)
        omega
      have hne80 : i * st + po + 8 ≠ n * st + po := by
        have := record_field_ne st (po + 8) po i n (by omega) (by omega)
          (Or.inl hin)
        omega
      have hne84 : i * st + po + 8 ≠ n * st + po + 4 := by
        have := record_field_ne st (po + 8) (po + 4) i n (by omega)
          (by omega) (Or.inl hin)
        omega
      have hstep : readVec3 (writeVec3 (transformPositionsLoop st po t s n
          buf) (n * st + po) (transformVec
            (readVec3 (transformPositionsLoop st po t s n buf)
              (n * st + po)) t s)) (i * st + po)
          = readVec3 (transformPositionsLoop st po t s n buf)
              (i * st + po) := by
        simp only [readVec3]
        rw [writeVec3_outside _ _ _ _ hne0 hne04 hne08,
          writeVec3_outside _ _ _ _ hne40 hne4 hne48,
          writeVec3_outside _ _ _ _ hne80 hne84 hne8]
      rw [hstep]
      exact ih buf i hlt

/-- Helper: a 3-word read is untouched by a 3-word write whose address
interval is disjoint. -/
theorem readVec3_writeVec3_disjoint (buf : Nat → ℚ) (o a : Nat) (v : Vec3)
    (h : a + 8 < o ∨ o + 8 < a) :
    readVec3 (writeVec3 buf o v) a = readVec3 buf a := by
  simp only [readVec3]
  rw [writeVec3_outside _ _ _ _ (by omega) (by omega) (by omega),
    writeVec3_outside _ _ _ _ (by omega) (by omega) (by omega),
    writeVec3_outside _ _ _ _ (by omega) (by omega) (by omega)]

/-- Helper: any in-record address of an earlier record lies strictly below
the start of a later record. -/
theorem record_sep (st i j x : Nat) (hx : x < st) (hij : i < j) :
    i * st + x < j * st := by
  have h2 : (i + 1) * st ≤ j * st := Nat.mul_le_mul_right st hij
  rw [Nat.succ_mul] at h2
  omega

/-- Helper: one-step unfolding of the point-size scaling loop. -/
theorem scalePointSizesLoop_succ (st pso : Nat) (s : ℚ) (n : Nat)
    (buf : Nat → ℚ) :
    scalePointSizesLoop st pso s (n + 1) buf
      = Function.update (scalePointSizesLoop st pso s n buf)
          (n * st + pso)
          (scalePointSizesLoop st pso s n buf (n * st + pso) * s) := by
  rw [scalePointSizesLoop, scalePointSizesLoop, List.range_succ,
    List.foldl_append, List.foldl_cons, List.foldl_nil]

/-- Helper: the point-size loop leaves every non-point-size word
unchanged. -/
theorem scalePointSizesLoop_outside (st pso : Nat) (s : ℚ) :
    ∀ (n : Nat) (buf : Nat → ℚ) (q : Nat),
      (∀ i, i < n → q ≠ i * st + pso) →
      scalePointSizesLoop st pso s n buf q = buf q := by
  intro n
  induction n with
  | zero => intro buf q hq; rfl
  | succ n ih =>
    intro buf q hq
    rw [scalePointSizesLoop_succ]
    rw [Function.update_noteq (hq n (by omega))]
    exact ih buf q (fun i hi => hq i (by omega))

/-- Helper: the point-size loop multiplies each record's point-size word
by the scale. -/
theorem scalePointSizesLoop_at (st pso : Nat) (s : ℚ)
    (hfit : pso < st) :
    ∀ (n : Nat) (buf : Nat → ℚ) (i : Nat), i < n →
      scalePointSizesLoop st pso s n buf (i * st + pso)
        = buf (i * st + pso) * s := by
  intro n
  induction n with
  | zero => intro buf i hi; exact absurd hi (Nat.not_lt_zero i)
  | succ n ih =>
    intro buf i hi
    rw [scalePointSizesLoop_succ]
    by_cases hin : i = n
    · subst hin
      rw [Function.update_same]
      rw [scalePointSizesLoop_outside st pso s i buf (i * st + pso)
        (fun j hj => by
          have := record_field_ne st pso pso i j (by omega) (by omega)
            (Or.inl (by omega))
          omega)]
    · have hne : i * st + pso ≠ n * st + pso :=
        record_field_ne st pso pso i n (by omega) (by omega) (Or.inl hin)
      rw [Function.update_noteq hne]
      exact ih buf i (by omega)

/-- Helper: one-step unfolding of the override-buffer transform loop. -/
theorem transformOverrideLoop_succ (st po npo : Nat) (t : Vec3) (s : ℚ)
    (n : Nat) (buf : Nat → ℚ) :
    transformOverrideLoop st po npo t s (n + 1) buf
      = (let b := transformOverrideLoop st po npo t s n buf
         let b1 := writeVec3 b (n * st + po)
           (transformVec (readVec3 b (n * st + po)) t s)
         writeVec3 b1 (n * st + npo)
           (transformVec (readVec3 b1 (n * st + npo)) t s)) := by
  rw [transformOverrideLoop, transformOverrideLoop, List.range_succ,
    List.foldl_append, List.foldl_cons, List.foldl_nil]

/-- Helper: the override loop leaves every word at or beyond no record —
i.e. any address past all processed records — unchanged. -/
theorem transformOverrideLoop_outside (st po npo : Nat) (t : Vec3) (s : ℚ)
    (hpo : po + 12 ≤ st) (hnpo : npo + 12 ≤ st) :
    ∀ (n : Nat) (buf : Nat → ℚ) (q : Nat),
      (∀ j, j < n → j * st + st ≤ q) →
      transformOverrideLoop st po npo t s n buf q = buf q := by
  intro n
  induction n with
  | zero => intro buf q hq; rfl
  | succ n ih =>
    intro buf q hq
    rw [transformOverrideLoop_succ]
    have hqn := hq n (by omega)
    simp only []
    rw [writeVec3_outside _ _ _ _ (by omega) (by omega) (by omega)]
    rw [writeVec3_outside _ _ _ _ (by omega) (by omega) (by omega)]
    exact ih buf q (fun j hj => hq j (by omega))

/-- Helper: the override loop transforms both the Position and the
NextPosition vector of every record. -/
theorem transformOverrideLoop_read (st po npo : Nat) (t : Vec3) (s : ℚ)
    (hpo : po + 12 ≤ st) (hnpo : npo + 12 ≤ st)
    (hdisj : po + 12 ≤ npo ∨ npo + 12 ≤ po) :
    ∀ (n : Nat) (buf : Nat → ℚ) (j : Nat), j < n →
      readVec3 (transformOverrideLoop st po npo t s n buf) (j * st + po)
        = transformVec (readVec3 buf (j * st + po)) t s ∧
      readVec3 (transformOverrideLoop st po npo t s n buf) (j * st + npo)
        = transformVec (readVec3 buf (j * st + npo)) t s := by
  intro n
  induction n with
  | zero => intro buf j hj; exact absurd hj (Nat.not_lt_zero j)
  | succ n ih =>
    intro buf j hj
    rw [transformOverrideLoop_succ]
    simp only []
    by_cases hjn : j = n
    · subst hjn
      have hbpo : readVec3 (transformOverrideLoop st po npo t s j buf)
          (j * st + po) = readVec3 buf (j * st + po) := by
        simp only [readVec3]
        rw [transformOverrideLoop_outside st po npo t s hpo hnpo j buf _
          (fun k hk => by
            have h2 : (k + 1) * st ≤ j * st := Nat.mul_le_mul_right st hk
            rw [Nat.succ_mul] at h2
            omega)]
        rw [transformOverrideLoop_outside st po npo t s hpo hnpo j buf _
          (fun k hk => by
            have h2 : (k + 1) * st ≤ j * st := Nat.mul_le_mul_right st hk
            rw [Nat.succ_mul] at h2
            omega)]
        rw [transformOverrideLoop_outside st po npo t s hpo hnpo j buf _
          (fun k hk => by
            have h2 : (k + 1) * st ≤ j * st := Nat.mul_le_mul_right st hk
            rw [Nat.succ_mul] at h2
            omega)]
      have hbnpo : readVec3 (transformOverrideLoop st po npo t s j buf)
          (j * st + npo) = readVec3 buf (j * st + npo) := by
        simp only [readVec3]
        rw [transformOverrideLoop_outside st po npo t s hpo hnpo j buf _
          (fun k hk => by
            have h2 : (k + 1) * st ≤ j * st := Nat.mul_le_mul_right st hk
            rw [Nat.succ_mul] at h2
            omega)]
        rw [transformOverrideLoop_outside st po npo t s hpo hnpo j buf _
          (fun k hk => by
            have h2 : (k + 1) * st ≤ j * st := Nat.mul_le_mul_right st hk
            rw [Nat.succ_mul] at h2
            omega)]
        rw [transformOverrideLoop_outside st po npo t s hpo hnpo j buf _
          (fun k hk => by
            have h2 : (k + 1) * st ≤ j * st := Nat.mul_le_mul_right st hk
            rw [Nat.succ_mul] at h2
            omega)]
      constructor
      · rw [readVec3_writeVec3_disjoint _ _ _ _ (by omega)]
        rw [readVec3_writeVec3, hbpo]
      · rw [readVec3_writeVec3]
        rw [readVec3_writeVec3_disjoint _ _ _ _ (by omega), hbnpo]
    · have hlt : j < n := by omega
      have hsep : j * st + st ≤ n * st := by
        have h2 : (j + 1) * st ≤ n * st := Nat.mul_le_mul_right st hlt
        rw [Nat.succ_mul] at h2
        omega
      have hstep : ∀ a, a + 12 ≤ st →
          readVec3 (writeVec3 (writeVec3 (transformOverrideLoop st po npo
            t s n buf) (n * st + po) (transformVec (readVec3
              (transformOverrideLoop st po npo t s n buf) (n * st + po))
              t s)) (n * st + npo) (transformVec (readVec3 (writeVec3
              (transformOverrideLoop st po npo t s n buf) (n * st + po)
              (transformVec (readVec3 (transformOverrideLoop st po npo t s
                n buf) (n * st + po)) t s)) (n * st + npo)) t s))
            (j * st + a)
          = readVec3 (transformOverrideLoop st po npo t s n buf)
              (j * st + a) := by
        intro a hafit
        rw [readVec3_writeVec3_disjoint _ _ _ _ (by omega)]
        rw [readVec3_writeVec3_disjoint _ _ _ _ (by omega)]
      rw [hstep po hpo, hstep npo hnpo]
      exact ih buf j hlt

/-- C7: on a mesh with a Float3 Position whose fields fit the stride and do
not overlap, transform replaces every vertex position in the mesh buffer
with (position + translation) · scale, applies the same update to the
Position and NextPosition vectors of every record of every group's
override buffer, and multiplies every point-size value by the scale when a
Float1 PointSize field exists. -/
theorem C7_transform (m : Mesh) (translation : Vec3) (scale : ℚ)
    (hpos : (m.vertexDesc.getAttribute .Position).format = .Float3)
    (hfit : (m.vertexDesc.getAttribute .Position).offset + 12
        ≤ m.vertexDesc.stride)
    (hps : (m.vertexDesc.getAttribute .PointSize).format = .Float1 →
      (m.vertexDesc.getAttribute .PointSize).offset + 4
          ≤ m.vertexDesc.stride ∧
      ((m.vertexDesc.getAttribute .PointSize).offset + 4
          ≤ (m.vertexDesc.getAttribute .Position).offset ∨
        (m.vertexDesc.getAttribute .Position).offset + 12
          ≤ (m.vertexDesc.getAttribute .PointSize).offset))
    (hov : ∀ g ∈ m.groups,
      (g.vertexDescriptionOverride.getAttribute .Position).offset + 12
          ≤ g.vertexDescriptionOverride.stride ∧
      (g.vertexDescriptionOverride.getAttribute .NextPosition).offset + 12
          ≤ g.vertexDescriptionOverride.stride ∧
      ((g.vertexDescriptionOverride.getAttribute .Position).offset + 12
          ≤ (g.vertexDescriptionOverride.getAttribute
              .NextPosition).offset ∨
        (g.vertexDescriptionOverride.getAttribute .NextPosition).offset
            + 12
          ≤ (g.vertexDescriptionOverride.getAttribute .Position).offset)) :
    (∀ i, i < m.nVertices →
      readVec3 (m.transform translation scale).vertices
          (i * m.vertexDesc.stride
            + (m.vertexDesc.getAttribute .Position).offset)
        = transformVec
            (readVec3 m.vertices
              (i * m.vertexDesc.stride
                + (m.vertexDesc.getAttribute .Position).offset))
            translation scale) ∧
    (m.transform translation scale).groups.length = m.groups.length ∧
    (∀ k, k < m.groups.length → ∀ vdata,
      (m.groups.getD k emptyGroup).vertexOverride = some vdata →
      ∃ vdata2,
        ((m.transform translation scale).groups.getD k
            emptyGroup).vertexOverride = some vdata2 ∧
        ∀ j, j < (m.groups.getD k emptyGroup).vertexCountOverride →
          readVec3 vdata2
              (j * (m.groups.getD k
                  emptyGroup).vertexDescriptionOverride.stride
                + ((m.groups.getD k
                    emptyGroup).vertexDescriptionOverride.getAttribute
                    .Position).offset)
            = transformVec
                (readVec3 vdata
                  (j * (m.groups.getD k
                      emptyGroup).vertexDescriptionOverride.stride
                    + ((m.groups.getD k
                        emptyGroup).vertexDescriptionOverride.getAttribute
                        .Position).offset))
                translation scale ∧
          readVec3 vdata2
              (j * (m.groups.getD k
                  emptyGroup).vertexDescriptionOverride.stride
                + ((m.groups.getD k
                    emptyGroup).vertexDescriptionOverride.getAttribute
                    .NextPosition).offset)
            = transformVec
                (readVec3 vdata
                  (j * (m.groups.getD k
                      emptyGroup).vertexDescriptionOverride.stride
                    + ((m.groups.getD k
                        emptyGroup).vertexDescriptionOverride.getAttribute
                        .NextPosition).offset))
                translation scale) ∧
    ((m.vertexDesc.getAttribute .PointSize).format = .Float1 →
      ∀ i, i < m.nVertices →
        (m.transform translation scale).vertices
            (i * m.vertexDesc.stride
              + (m.vertexDesc.getAttribute .PointSize).offset)
          = m.vertices
              (i * m.vertexDesc.stride
                + (m.vertexDesc.getAttribute .PointSize).offset)
            * scale) := by
  have hverts : (m.transform translation scale).vertices
      = (if (m.vertexDesc.getAttribute .PointSize).format = .Float1 then
          scalePointSizesLoop m.vertexDesc.stride
            (m.vertexDesc.getAttribute .PointSize).offset scale
            m.nVertices
            (transformPositionsLoop m.vertexDesc.stride
              (m.vertexDesc.getAttribute .Position).offset translation
              scale m.nVertices m.vertices)
        else
          transformPositionsLoop m.vertexDesc.stride
            (m.vertexDesc.getAttribute .Position).offset translation scale
            m.nVertices m.vertices) := by
    rw [Mesh.transform, if_neg (by simp [hpos])]
  have hgroups : (m.transform translation scale).groups
      = m.groups.map
          (fun g =>
            match g.vertexOverride with
            | none => g
            | some vdata =>
              let descO := g.vertexDescriptionOverride
              { g with
                vertexOverride := some (transformOverrideLoop descO.stride
                  (descO.getAttribute .Position).offset
                  (descO.getAttribute .NextPosition).offset
                  translation scale g.vertexCountOverride vdata) }) := by
    rw [Mesh.transform, if_neg (by simp [hpos])]
  refine ⟨?_, ?_, ?_, ?_⟩
  · intro i hi
    rw [hverts]
    by_cases hpsf :
        (m.vertexDesc.getAttribute .PointSize).format = .Float1
    · rw [if_pos hpsf]
      obtain ⟨hps1, hps2⟩ := hps hpsf
      have hro : readVec3 (scalePointSizesLoop m.vertexDesc.stride
          (m.vertexDesc.getAttribute .PointSize).offset scale m.nVertices
          (transformPositionsLoop m.vertexDesc.stride
            (m.vertexDesc.getAttribute .Position).offset translation scale
            m.nVertices m.vertices))
          (i * m.vertexDesc.stride
            + (m.vertexDesc.getAttribute .Position).offset)
          = readVec3 (transformPositionsLoop m.vertexDesc.stride
              (m.vertexDesc.getAttribute .Position).offset translation
              scale m.nVertices m.vertices)
              (i * m.vertexDesc.stride
                + (m.vertexDesc.getAttribute .Position).offset) := by
        simp only [readVec3]
        rw [scalePointSizesLoop_outside _ _ _ _ _ _ (fun i2 hi2 => by
          have := record_field_ne m.vertexDesc.stride
            ((m.vertexDesc.getAttribute .Position).offset)
            ((m.vertexDesc.getAttribute .PointSize).offset) i i2
            (by omega) (by omega) (Or.inr (by omega))
          omega)]
        rw [scalePointSizesLoop_outside _ _ _ _ _ _ (fun i2 hi2 => by
          have := record_field_ne m.vertexDesc.stride
            ((m.vertexDesc.getAttribute .Position).offset + 4)
            ((m.vertexDesc.getAttribute .PointSize).offset) i i2
            (by omega) (by omega) (Or.inr (by omega))
          omega)]
        rw [scalePointSizesLoop_outside _ _ _ _ _ _ (fun i2 hi2 => by
          have := record_field_ne m.vertexDesc.stride
            ((m.vertexDesc.getAttribute .Position).offset + 8)
            ((m.vertexDesc.getAttribute .PointSize).offset) i i2
            (by omega) (by omega) (Or.inr (by omega))
          omega)]
      rw [hro]
      exact transformPositionsLoop_read m.vertexDesc.stride
        (m.vertexDesc.getAttribute .Position).offset translation scale
        hfit m.nVertices m.vertices i hi
    · rw [if_neg hpsf]
      exact transformPositionsLoop_read m.vertexDesc.stride
        (m.vertexDesc.getAttribute .Position).offset translation scale
        hfit m.nVertices m.vertices i hi
  · rw [hgroups, List.length_map]
  · intro k hk vdata hvd
    rw [hgroups]
    have hget : (m.groups.map
        (fun g =>
          match g.vertexOverride with
          | none => g
          | some vdata =>
            let descO := g.vertexDescriptionOverride
            { g with
              vertexOverride := some (transformOverrideLoop descO.stride
                (descO.getAttribute .Position).offset
                (descO.getAttribute .NextPosition).offset
                translation scale g.vertexCountOverride vdata) })).getD k
          emptyGroup
        = (fun g =>
          match g.vertexOverride with
          | none => g
          | some vdata =>
            let descO := g.vertexDescriptionOverride
            { g with
              vertexOverride := some (transformOverrideLoop descO.stride
                (descO.getAttribute .Position).offset
                (descO.getAttribute .NextPosition).offset
                translation scale g.vertexCountOverride vdata) })
            (m.groups.getD k emptyGroup) := by
      rw [List.getD_eq_getElem _ _ (by simpa using hk),
        List.getElem_map, List.getD_eq_getElem _ _ hk]
    rw [hget]
    have hmem : m.groups.getD k emptyGroup ∈ m.groups := by
      rw [List.getD_eq_getElem _ _ hk]
      exact List.getElem_mem hk
    obtain ⟨ho1, ho2, ho3⟩ := hov _ hmem
    refine ⟨transformOverrideLoop
      (m.groups.getD k emptyGroup).vertexDescriptionOverride.stride
      ((m.groups.getD k
        emptyGroup).vertexDescriptionOverride.getAttribute
        .Position).offset
      ((m.groups.getD k
        emptyGroup).vertexDescriptionOverride.getAttribute
        .NextPosition).offset
      translation scale
      (m.groups.getD k emptyGroup).vertexCountOverride vdata, ?_, ?_⟩
    · simp only [hvd]
    · intro j hj
      exact transformOverrideLoop_read _ _ _ translation scale ho1 ho2 ho3
        _ vdata j hj
  · intro hpsf i hi
    rw [hverts, if_pos hpsf]
    obtain ⟨hps1, hps2⟩ := hps hpsf
    rw [scalePointSizesLoop_at _ _ _ (by omega) _ _ i hi]
    rw [transformPositionsLoop_outside _ _ _ _ _ _ _ (fun j hj => by
      refine ⟨?_, ?_, ?_⟩ <;>
        · have := record_field_ne m.vertexDesc.stride
            ((m.vertexDesc.getAttribute .PointSize).offset)
            ((m.vertexDesc.getAttribute .Position).offset) i j
            (by omega) (by omega) (Or.inr (by omega))
          have h2 := record_field_ne m.vertexDesc.stride
            ((m.vertexDesc.getAttribute .PointSize).offset)
            ((m.vertexDesc.getAttribute .Position).offset + 4) i j
            (by omega) (by omega) (Or.inr (by omega))
          have h3 := record_field_ne m.vertexDesc.stride
            ((m.vertexDesc.getAttribute .PointSize).offset)
            ((m.vertexDesc.getAttribute .Position).offset + 8) i j
            (by omega) (by omega) (Or.inr (by omega))
          omega)]

/-- C7 (witness): transforming `meshW7` by translation (1,0,0) and scale 2
maps the vertex position (0,4,8) to (2,8,16), the point size 12 to 24, and
the override's Position (0,4,8) and NextPosition (12,16,20) to (2,8,16)
and (26,32,40). -/
theorem C7_transform_witness :
    readVec3 (meshW7.transform (1, 0, 0) 2).vertices 0 = (2, 8, 16) ∧
    (meshW7.transform (1, 0, 0) 2).vertices 12 = 24 ∧
    ∃ vdata2,
      ((meshW7.transform (1, 0, 0) 2).groups.getD 0
          emptyGroup).vertexOverride = some vdata2 ∧
      readVec3 vdata2 0 = (2, 8, 16) ∧
      readVec3 vdata2 12 = (26, 32, 40) := by
  have h := C7_transform meshW7 (1, 0, 0) 2 (by decide) (by decide)
    (fun _ => ⟨by decide, by decide⟩)
    (by decide)
  obtain ⟨vdata2, hv2, hjs⟩ := h.2.2.1 0 (by decide) (fun q => (q : ℚ)) rfl
  have hj := hjs 0 (by decide)
  refine ⟨?_, ?_, vdata2, hv2, ?_, ?_⟩
  · have c1 := h.1 0 (by decide)
    have e : (0 : Nat) * meshW7.vertexDesc.stride
        + (meshW7.vertexDesc.getAttribute .Position).offset = 0 := rfl
    rw [e] at c1
    rw [c1]
    norm_num [transformVec, readVec3, meshW7]
  · have c2 := h.2.2.2 (by decide) 0 (by decide)
    have e : (0 : Nat) * meshW7.vertexDesc.stride
        + (meshW7.vertexDesc.getAttribute .PointSize).offset = 12 := rfl
    rw [e] at c2
    rw [c2]
    norm_num [meshW7]
  · have c3 := hj.1
    have e : (0 : Nat) * (meshW7.groups.getD 0
          emptyGroup).vertexDescriptionOverride.stride
        + ((meshW7.groups.getD 0
            emptyGroup).vertexDescriptionOverride.getAttribute
            .Position).offset = 0 := rfl
    rw [e] at c3
    rw [c3]
    norm_num [transformVec, readVec3]
  · have c4 := hj.2
    have e : (0 : Nat) * (meshW7.groups.getD 0
          emptyGroup).vertexDescriptionOverride.stride
        + ((meshW7.groups.getD 0
            emptyGroup).vertexDescriptionOverride.getAttribute
            .NextPosition).offset = 12 := rfl
    rw [e] at c4
    rw [c4]
    norm_num [transformVec, readVec3]
